import Mathlib

/-! Channel monitoring page: classification, aggregation and ranking.

A shallow embedding of the request handler for the path "/" in `src/main.go`
(lines 92-211): the row loop that turns every `Channel` read from the store into a
`ChannelView` and accumulates a `SummaryData`, the summary finalisation after the loop,
and the `sort.SliceStable` call that ranks the views.

Modelling conventions.

* Go `int` has 64 bits. The two usage totals are summed with the wrap-around of the machine
  addition (`wrapInt`). The two limit totals and the two channel counters grow by at most 100
  per row and would need more than 2^56 rows to reach 2^63, more than a slice can hold; they
  are summed in `Int`.
* A Go `float64` is embedded as the rational number it stands for, and every conversion and
  operation rounds its exact result to the nearest float64, ties to even (`f64`, significand
  of 53 bits). The exponent range is not bounded in `f64`: on 64-bit counters and positive
  limits every value the handler computes is 0 or has a magnitude between 2^-64 and 2^71,
  inside the normal range of float64, so neither overflow nor underflow occurs and no NaN or
  infinity arises.
* `sort.SliceStable` belongs to the Go standard library, not to the repository. It is
  embedded as the library's insertion sort (`insertionSort_func`: every element is swapped
  leftwards while the comparator puts it before its left neighbour), which is all the library
  runs on a slice of at most 20 elements. On a longer slice the library sorts blocks of 20 this
  way and merges them stably; the comparator of the handler is a strict weak order on rational
  keys, for which every stable sort returns the same sequence.
-/

namespace Monitoring

/-! ## Data model (`src/main.go`, lines 15-50) -/

/-- The database record of one channel (`type Channel struct`). -/
structure Channel where
  ID : Int
  Status : String
  CountMinuteUsage : Int
  CountDayUsage : Int
  Tag : String
  deriving DecidableEq, Repr

/-- The view of one channel shown on the page (`type ChannelView struct`). -/
structure ChannelView where
  ID : Int
  StatusDisplay : String
  CountMinuteUsage : Int
  CountDayUsage : Int
  TagDisplay : String
  MinuteLimit : Int
  DayLimit : Int
  MinutePercentage : ℚ
  DayPercentage : ℚ
  IsPaid : Bool
  IsAvailable : Bool
  deriving DecidableEq, Repr

/-- The pool-wide summary (`type SummaryData struct`). -/
structure SummaryData where
  TotalMinuteUsage : Int
  TotalDayUsage : Int
  TotalMinuteLimit : Int
  TotalDayLimit : Int
  MinutePercentage : ℚ
  DayPercentage : ℚ
  DisabledNormalChannels : Int
  TotalNormalChannels : Int
  DisabledNormalPercentage : ℚ
  deriving DecidableEq, Repr

/-- The zero value of `ChannelView` (every Go field starts at its zero value). -/
def ChannelView.zero : ChannelView :=
  { ID := 0, StatusDisplay := "", CountMinuteUsage := 0, CountDayUsage := 0,
    TagDisplay := "", MinuteLimit := 0, DayLimit := 0, MinutePercentage := 0,
    DayPercentage := 0, IsPaid := false, IsAvailable := false }

/-- The zero value of `SummaryData`, the state of `var summary SummaryData` (line 102). -/
def SummaryData.zero : SummaryData :=
  { TotalMinuteUsage := 0, TotalDayUsage := 0, TotalMinuteLimit := 0, TotalDayLimit := 0,
    MinutePercentage := 0, DayPercentage := 0, DisabledNormalChannels := 0,
    TotalNormalChannels := 0, DisabledNormalPercentage := 0 }

/-! ## Machine arithmetic: `int` and `float64` -/

/-- The value of a 64-bit two's complement `int` that holds the integer `n` after
wrap-around: the representative of `n` modulo 2^64 in the range from -2^63 to 2^63 - 1. -/
def wrapInt (n : Int) : Int :=
  (n + 9223372036854775808) % 18446744073709551616 - 9223372036854775808

/-- Rounding of a rational to the nearest integer, a tie going to the even neighbour. -/
def roundEven (y : ℚ) : Int :=
  if y - (⌊y⌋ : ℚ) < 1 / 2 then ⌊y⌋
  else if 1 / 2 < y - (⌊y⌋ : ℚ) then ⌊y⌋ + 1
  else if ⌊y⌋ % 2 = 0 then ⌊y⌋ else ⌊y⌋ + 1

/-- The exponent of the unit in the last place of a positive value held with a significand of
53 bits: with `2 ^ e ≤ x < 2 ^ (e + 1)` it is `e - 52`. -/
def ulpExp (x : ℚ) : Int := Int.log 2 x - 52

/-- The float64 nearest to a positive rational: the significand is rounded to an integer of
53 bits, ties to even. -/
def roundPos (x : ℚ) : ℚ := (roundEven (x / 2 ^ ulpExp x) : ℚ) * 2 ^ ulpExp x

/-- The float64 nearest to a rational (round to nearest, ties to even), the rounding of every
`float64` conversion and operation of the handler. -/
def f64 (x : ℚ) : ℚ :=
  if 0 < x then roundPos x else if x < 0 then -roundPos (-x) else 0

/-- The expression `float64(a) / float64(b) * 100` of lines 145, 154, 173, 179 and 186: two
conversions, a quotient and a product, each rounded to float64 (the constant 100 is a
float64). -/
def ratioTimes100 (a b : Int) : ℚ :=
  f64 (f64 (f64 (a : ℚ) / f64 (b : ℚ)) * 100)

/-! ## The percentage computation (lines 144-160 and 172-183) -/

/-- The guarded, capped percentage the handler computes four times, for the two windows of a
channel and for the two windows of the summary:
`if limit > 0 { p = float64(usage) / float64(limit) * 100; if p > 100 { p = 100 } } else { p = 0 }`. -/
def percentage (usage limit : Int) : ℚ :=
  if limit > 0 then
    let p : ℚ := ratioTimes100 usage limit
    if p > 100 then 100 else p
  else 0

/-! ## The row loop (lines 101-168) -/

/-- The variables the row loop updates: `channelViews`, `summary` and
`availableNormalChannels` (lines 101-103). -/
structure LoopState where
  channelViews : List ChannelView
  summary : SummaryData
  availableNormalChannels : Int
  deriving DecidableEq, Repr

/-- The state before the first row: a nil slice, the zero summary and the counter 0. -/
def LoopState.init : LoopState :=
  { channelViews := [], summary := SummaryData.zero, availableNormalChannels := 0 }

/-- The view of a channel after the status branch (lines 113-126). -/
def statusView (channel : Channel) : ChannelView :=
  let view : ChannelView :=
    { ChannelView.zero with
      ID := channel.ID
      CountMinuteUsage := channel.CountMinuteUsage
      CountDayUsage := channel.CountDayUsage }
  if channel.Status = "1" then
    { view with StatusDisplay := "可用", IsAvailable := true }
  else
    { view with StatusDisplay := "自动禁用", IsAvailable := false }

/-- The view of a channel after the tier branch (lines 128-137), before its percentages. -/
def tierView (channel : Channel) : ChannelView :=
  let view := statusView channel
  if channel.Tag = "gcp" then
    { view with TagDisplay := "付费号", MinuteLimit := 20, DayLimit := 100, IsPaid := true }
  else
    { view with TagDisplay := "普号", MinuteLimit := 5, DayLimit := 25, IsPaid := false }

/-- The finished view of a channel: the tier view with both percentages (lines 144-160). -/
def classify (channel : Channel) : ChannelView :=
  let view := tierView channel
  let view := { view with
    MinutePercentage := percentage channel.CountMinuteUsage view.MinuteLimit }
  { view with DayPercentage := percentage channel.CountDayUsage view.DayLimit }

/-- One iteration of the row loop after a successful scan (lines 113-167): the view is built,
a channel whose tag is not "gcp" is counted in `summary.TotalNormalChannels` and, when
available, in `availableNormalChannels`; the four totals grow (the usage totals with the
wrap-around of the 64-bit addition) and the view is appended. -/
def rowBody (st : LoopState) (channel : Channel) : LoopState :=
  let view := classify channel
  let summary :=
    if channel.Tag = "gcp" then st.summary
    else { st.summary with TotalNormalChannels := st.summary.TotalNormalChannels + 1 }
  let availableNormalChannels :=
    if channel.Tag = "gcp" then st.availableNormalChannels
    else if (tierView channel).IsAvailable then st.availableNormalChannels + 1
    else st.availableNormalChannels
  let summary := { summary with
    TotalMinuteUsage := wrapInt (summary.TotalMinuteUsage + channel.CountMinuteUsage)
    TotalDayUsage := wrapInt (summary.TotalDayUsage + channel.CountDayUsage)
    TotalMinuteLimit := summary.TotalMinuteLimit + view.MinuteLimit
    TotalDayLimit := summary.TotalDayLimit + view.DayLimit }
  { channelViews := st.channelViews ++ [view]
    summary := summary
    availableNormalChannels := availableNormalChannels }

/-- The row loop over the records of the result set, in order. -/
def rowLoop (st : LoopState) (rows : List Channel) : LoopState :=
  rows.foldl rowBody st

/-! ## Summary finalisation (lines 170-187) -/

/-- The statements after the loop: the disabled count, the two guarded and capped summary
percentages, and the guarded (not capped) disabled percentage, each computed as
`float64(a) / float64(b) * 100`. A guard that fails leaves the field as it was. -/
def finalize (st : LoopState) : SummaryData :=
  let s0 : SummaryData := { st.summary with
    DisabledNormalChannels := st.summary.TotalNormalChannels - st.availableNormalChannels }
  let s1 : SummaryData :=
    if s0.TotalMinuteLimit > 0 then
      let p : ℚ := ratioTimes100 s0.TotalMinuteUsage s0.TotalMinuteLimit
      { s0 with MinutePercentage := if p > 100 then 100 else p }
    else s0
  let s2 : SummaryData :=
    if s1.TotalDayLimit > 0 then
      let p : ℚ := ratioTimes100 s1.TotalDayUsage s1.TotalDayLimit
      { s1 with DayPercentage := if p > 100 then 100 else p }
    else s1
  if s2.TotalNormalChannels > 0 then
    { s2 with
      DisabledNormalPercentage :=
        ratioTimes100 s2.DisabledNormalChannels s2.TotalNormalChannels }
  else s2

/-! ## Ranking (lines 195-203) -/

/-- The comparator handed to `sort.SliceStable`, on the two views at indices `i` and `j`. -/
def less (vi vj : ChannelView) : Bool :=
  if vi.IsPaid != vj.IsPaid then vi.IsPaid
  else if vi.DayPercentage != vj.DayPercentage then
    decide (vi.DayPercentage < vj.DayPercentage)
  else decide (vi.MinutePercentage < vj.MinutePercentage)

/-- The inner loop of the library's insertion sort, `for j := i; j > a && less(j, j-1); j--
{ swap(j, j-1) }`: the element `x` travels leftwards over the sorted part while the comparator
puts it before its left neighbour. The sorted part is held right to left (nearest neighbour
first), and so is the result. -/
def sinkLeft {α : Type} (lt : α → α → Bool) (x : α) : List α → List α
  | [] => [x]
  | y :: ys => if lt x y then y :: sinkLeft lt x ys else x :: y :: ys

/-- The outer loop of the insertion sort: the elements still to come are sunk one by one into
the sorted part (held right to left). -/
def insertionLoop {α : Type} (lt : α → α → Bool) : List α → List α → List α
  | sorted, [] => sorted
  | sorted, x :: rest => insertionLoop lt (sinkLeft lt x sorted) rest

/-- The stable sort `sort.SliceStable(data, less)` as a function on the slice contents. -/
def sliceStable {α : Type} (lt : α → α → Bool) (data : List α) : List α :=
  (insertionLoop lt [] data).reverse

/-- The ranked views: `sort.SliceStable(channelViews, ...)` with the comparator `less`. -/
def rank (channelViews : List ChannelView) : List ChannelView :=
  sliceStable less channelViews

/-- The triple of fields the comparator looks at. -/
def sortKey (v : ChannelView) : Bool × ℚ × ℚ :=
  (v.IsPaid, v.DayPercentage, v.MinutePercentage)

/-! ## The whole pass (lines 101-211) -/

/-- The value handed to the template: `data.Channels` and `data.Summary`. -/
structure PageData where
  Channels : List ChannelView
  Summary : SummaryData
  deriving DecidableEq, Repr

/-- The pass over a result set whose rows all scan: loop, finalisation, ranking. -/
def pass (rows : List Channel) : PageData :=
  let st := rowLoop LoopState.init rows
  { Channels := rank st.channelViews, Summary := finalize st }

/-- The count `availableNormalChannels` at the end of the row loop. -/
def availableNormal (rows : List Channel) : Int :=
  (rowLoop LoopState.init rows).availableNormalChannels

/-! ## The percentage with the division as a partial operation -/

/-- The computation of `percentage` with the division made explicit: `none` stands for a
division by zero being executed. The guard `limit > 0` is the one of the source; the test on
the divisor belongs to the division itself. -/
def percentageChecked (usage limit : Int) : Option ℚ :=
  if limit > 0 then
    if f64 (limit : ℚ) = 0 then none
    else
      let p : ℚ := ratioTimes100 usage limit
      some (if p > 100 then 100 else p)
  else some 0

/-! ## The handler with rows that may fail to scan (lines 105-111 and 189-211) -/

/-- What one turn of `for rows.Next()` delivers: a record, or an error of `rows.Scan`. -/
inductive RowRead where
  | record (channel : Channel)
  | scanError
  deriving DecidableEq, Repr

/-- The row loop with the scan check: a scan error ends the handler at once (`return` at
line 110, result `none`); a record goes through `rowBody`. -/
def scanLoop : LoopState → List RowRead → Option LoopState
  | st, [] => some st
  | _, RowRead.scanError :: _ => none
  | st, RowRead.record channel :: rest => scanLoop (rowBody st channel) rest

/-- The handler from the first row on: the row loop, the summary finalisation, the check of
`rows.Err()` (`rowsErr` tells whether the iteration ended with an error, `return` at line
192), the ranking, and the data handed to the template. `none` means that the handler
returned with `http.Error` and handed nothing to the template. -/
def handler (reads : List RowRead) (rowsErr : Bool) : Option PageData :=
  match scanLoop LoopState.init reads with
  | none => none
  | some st =>
    let summary := finalize st
    if rowsErr then none
    else some { Channels := rank st.channelViews, Summary := summary }

/-! ## Concrete inputs used in the examples -/

/-- A view that carries only the fields the comparator reads, and an identifier. -/
def mkView (id : Int) (paid : Bool) (dayPct minutePct : ℚ) : ChannelView :=
  { ChannelView.zero with
    ID := id, IsPaid := paid, DayPercentage := dayPct, MinutePercentage := minutePct }

/-- The input of the ordering scenario: a paid view at 10 and two normal views at 90, 5. -/
def scenarioInput : List ChannelView :=
  [mkView 1 true 10 0, mkView 2 false 90 0, mkView 3 false 5 0]

/-- A normal channel with day usage 1 followed by a paid channel with day usage 25. -/
def skewedPool : List Channel :=
  [ { ID := 1, Status := "1", CountMinuteUsage := 0, CountDayUsage := 1, Tag := "" },
    { ID := 2, Status := "1", CountMinuteUsage := 0, CountDayUsage := 25, Tag := "gcp" } ]

/-- A single normal channel with day usage 7 (against the day limit 25). -/
def sevenPool : List Channel :=
  [ { ID := 1, Status := "1", CountMinuteUsage := 0, CountDayUsage := 7, Tag := "" } ]

/-- Two normal channels whose day usage is the largest 64-bit integer, 2^63 - 1. -/
def overflowPool : List Channel :=
  [ { ID := 1, Status := "1", CountMinuteUsage := 0, CountDayUsage := 9223372036854775807,
      Tag := "" },
    { ID := 2, Status := "1", CountMinuteUsage := 0, CountDayUsage := 9223372036854775807,
      Tag := "" } ]

/-- Three normal channels of which the second is disabled. -/
def thirdPool : List Channel :=
  [ { ID := 1, Status := "1", CountMinuteUsage := 0, CountDayUsage := 0, Tag := "" },
    { ID := 2, Status := "2", CountMinuteUsage := 0, CountDayUsage := 0, Tag := "" },
    { ID := 3, Status := "1", CountMinuteUsage := 0, CountDayUsage := 0, Tag := "" } ]

/-! ## The insertion sort: permutation, order and stability -/

section SortTheory

variable {α : Type} (lt : α → α → Bool)

theorem sinkLeft_perm (x : α) (l : List α) : (sinkLeft lt x l).Perm (x :: l) := by
  induction l with
  | nil => simp [sinkLeft]
  | cons y ys ih =>
    by_cases h : lt x y = true
    · simp only [sinkLeft, h, if_true]
      exact (List.Perm.cons y ih).trans (List.Perm.swap x y ys)
    · simp [sinkLeft, h]

theorem insertionLoop_perm (sorted rest : List α) :
    (insertionLoop lt sorted rest).Perm (sorted ++ rest) := by
  induction rest generalizing sorted with
  | nil => simp [insertionLoop]
  | cons x rest ih =>
    simp only [insertionLoop]
    refine (ih (sinkLeft lt x sorted)).trans ?_
    refine ((sinkLeft_perm lt x sorted).append_right rest).trans ?_
    exact (List.perm_middle).symm

theorem sliceStable_perm (data : List α) : (sliceStable lt data).Perm data := by
  unfold sliceStable
  exact (List.reverse_perm _).trans (by simpa using insertionLoop_perm lt [] data)

/-- Sinking an element keeps the sorted part in order, for a comparator that is asymmetric
and whose complement is transitive. -/
theorem sinkLeft_pairwise
    (hasym : ∀ a b, lt a b = true → lt b a = false)
    (hneg : ∀ a b c, lt a b = false → lt b c = false → lt a c = false)
    (x : α) (l : List α) (h : l.Pairwise (fun a b => lt a b = false)) :
    (sinkLeft lt x l).Pairwise (fun a b => lt a b = false) := by
  induction l with
  | nil => simp [sinkLeft]
  | cons y ys ih =>
    obtain ⟨hy, hys⟩ := List.pairwise_cons.mp h
    by_cases hxy : lt x y = true
    · simp only [sinkLeft, hxy, if_true]
      refine List.pairwise_cons.mpr ⟨?_, ih hys⟩
      intro z hz
      rcases List.mem_cons.mp ((sinkLeft_perm lt x ys).mem_iff.mp hz) with hzx | hzy
      · subst hzx
        exact hasym _ _ hxy
      · exact hy z hzy
    · have hxy' : lt x y = false := by simpa using hxy
      simp only [sinkLeft, hxy', Bool.false_eq_true, if_false]
      refine List.pairwise_cons.mpr ⟨?_, h⟩
      intro z hz
      rcases List.mem_cons.mp hz with hzy | hzy
      · subst hzy
        exact hxy'
      · exact hneg x y z hxy' (hy z hzy)

theorem insertionLoop_pairwise
    (hasym : ∀ a b, lt a b = true → lt b a = false)
    (hneg : ∀ a b c, lt a b = false → lt b c = false → lt a c = false)
    (sorted rest : List α) (h : sorted.Pairwise (fun a b => lt a b = false)) :
    (insertionLoop lt sorted rest).Pairwise (fun a b => lt a b = false) := by
  induction rest generalizing sorted with
  | nil => simpa [insertionLoop] using h
  | cons x rest ih =>
    simp only [insertionLoop]
    exact ih _ (sinkLeft_pairwise lt hasym hneg x sorted h)

/-- The output of the sort is in order: no element is put by the comparator before an
element that precedes it. -/
theorem sliceStable_pairwise
    (hasym : ∀ a b, lt a b = true → lt b a = false)
    (hneg : ∀ a b c, lt a b = false → lt b c = false → lt a c = false)
    (data : List α) : (sliceStable lt data).Pairwise (fun a b => lt b a = false) := by
  unfold sliceStable
  rw [List.pairwise_reverse]
  exact insertionLoop_pairwise lt hasym hneg [] data List.Pairwise.nil

/-- Sinking an element never carries it over an element of its own class. -/
theorem sinkLeft_filter (p : α → Bool)
    (hp : ∀ a b, p a = true → p b = true → lt a b = false) (x : α) (l : List α) :
    (sinkLeft lt x l).filter p = (x :: l).filter p := by
  induction l with
  | nil => simp [sinkLeft]
  | cons y ys ih =>
    by_cases hxy : lt x y = true
    · simp only [sinkLeft, hxy, if_true]
      by_cases hpx : p x = true
      · have hpy : p y = false := by
          by_contra hc
          have := hp x y hpx (by simpa using hc)
          simp [hxy] at this
        simp [List.filter_cons, hpy, hpx, ih]
      · have hpx' : p x = false := by simpa using hpx
        simp [List.filter_cons, hpx', ih]
    · have hxy' : lt x y = false := by simpa using hxy
      simp [sinkLeft, hxy']

theorem insertionLoop_filter (p : α → Bool)
    (hp : ∀ a b, p a = true → p b = true → lt a b = false) (sorted rest : List α) :
    (insertionLoop lt sorted rest).filter p = (rest.filter p).reverse ++ sorted.filter p := by
  induction rest generalizing sorted with
  | nil => simp [insertionLoop]
  | cons x rest ih =>
    simp only [insertionLoop]
    rw [ih, sinkLeft_filter lt p hp]
    by_cases hpx : p x = true
    · simp [List.filter_cons, hpx]
    · have hpx' : p x = false := by simpa using hpx
      simp [List.filter_cons, hpx']

/-- Stability: the elements of one class leave the sort in the order they entered it. -/
theorem sliceStable_filter (p : α → Bool)
    (hp : ∀ a b, p a = true → p b = true → lt a b = false) (data : List α) :
    (sliceStable lt data).filter p = data.filter p := by
  unfold sliceStable
  rw [List.filter_reverse, insertionLoop_filter lt p hp]
  simp

end SortTheory


/-! ## The comparator -/

/-- The comparator in words: paid before normal, then the smaller day percentage, then the
smaller minute percentage. -/
theorem less_iff (a b : ChannelView) :
    less a b = true ↔
      (a.IsPaid = true ∧ b.IsPaid = false) ∨
      (a.IsPaid = b.IsPaid ∧ (a.DayPercentage < b.DayPercentage ∨
        (a.DayPercentage = b.DayPercentage ∧ a.MinutePercentage < b.MinutePercentage))) := by
  unfold less
  by_cases hp : a.IsPaid = b.IsPaid
  · by_cases hd : a.DayPercentage = b.DayPercentage
    · cases hb : b.IsPaid <;> simp [hp, hd, hb]
    · have hd' : ¬ (a.DayPercentage < b.DayPercentage ∧ False) := by simp
      cases hb : b.IsPaid <;> simp [hp, hd, hb]
  · cases ha : a.IsPaid <;> cases hb : b.IsPaid <;> simp_all

theorem less_asymm (a b : ChannelView) (h : less a b = true) : less b a = false := by
  rw [Bool.eq_false_iff]
  intro h'
  rw [less_iff] at h h'
  rcases h with ⟨h1, h2⟩ | ⟨h1, h2 | ⟨h2, h3⟩⟩ <;>
    rcases h' with ⟨g1, g2⟩ | ⟨g1, g2 | ⟨g2, g3⟩⟩ <;>
    first
      | linarith
      | simp_all

theorem less_negTrans (a b c : ChannelView) (hab : less a b = false) (hbc : less b c = false) :
    less a c = false := by
  rw [Bool.eq_false_iff, Ne, less_iff] at hab hbc ⊢
  push_neg at hab hbc
  obtain ⟨hab1, hab2⟩ := hab
  obtain ⟨hbc1, hbc2⟩ := hbc
  rintro (⟨h1, h2⟩ | ⟨h1, h⟩)
  · cases hb : b.IsPaid
    · exact absurd (hab1 h1) (by simp [hb])
    · exact absurd (hbc1 hb) (by simp [h2])
  · cases ha : a.IsPaid <;> cases hb : b.IsPaid
    · have hc : c.IsPaid = false := by rw [← h1, ha]
      obtain ⟨p1, p2⟩ := hab2 (by rw [ha, hb])
      obtain ⟨q1, q2⟩ := hbc2 (by rw [hb, hc])
      rcases h with h | ⟨h, h'⟩
      · linarith
      · have e1 : b.DayPercentage = a.DayPercentage := le_antisymm p1 (by linarith)
        have e2 : c.DayPercentage = b.DayPercentage := le_antisymm q1 (by linarith)
        have := p2 e1.symm
        have := q2 e2.symm
        linarith
    · have hc : c.IsPaid = false := by rw [← h1, ha]
      exact absurd (hbc1 hb) (by simp [hc])
    · exact absurd (hab1 ha) (by simp [hb])
    · have hc : c.IsPaid = true := by rw [← h1, ha]
      obtain ⟨p1, p2⟩ := hab2 (by rw [ha, hb])
      obtain ⟨q1, q2⟩ := hbc2 (by rw [hb, hc])
      rcases h with h | ⟨h, h'⟩
      · linarith
      · have e1 : b.DayPercentage = a.DayPercentage := le_antisymm p1 (by linarith)
        have e2 : c.DayPercentage = b.DayPercentage := le_antisymm q1 (by linarith)
        have := p2 e1.symm
        have := q2 e2.symm
        linarith


theorem less_eq_false_of_sortKey_eq (a b : ChannelView) (h : sortKey a = sortKey b) :
    less a b = false := by
  simp only [sortKey, Prod.mk.injEq] at h
  obtain ⟨h1, h2, h3⟩ := h
  rw [Bool.eq_false_iff, Ne, less_iff, h1, h2, h3]
  simp

/-- The ranked views are in the order of the comparator. -/
theorem rank_pairwise (channelViews : List ChannelView) :
    (rank channelViews).Pairwise (fun a b => less b a = false) :=
  sliceStable_pairwise less less_asymm less_negTrans channelViews

theorem rank_perm (channelViews : List ChannelView) :
    (rank channelViews).Perm channelViews :=
  sliceStable_perm less channelViews

theorem rank_scenarioInput :
    rank scenarioInput = [mkView 1 true 10 0, mkView 3 false 5 0, mkView 2 false 90 0] := by
  decide

/-! ## The wrap-around of the 64-bit addition -/

theorem wrapInt_of_range (n : Int) (h1 : -9223372036854775808 ≤ n)
    (h2 : n < 9223372036854775808) : wrapInt n = n := by
  unfold wrapInt
  omega

theorem wrapInt_range (n : Int) :
    -9223372036854775808 ≤ wrapInt n ∧ wrapInt n < 9223372036854775808 := by
  unfold wrapInt
  omega

theorem wrapInt_wrapInt (n : Int) : wrapInt (wrapInt n) = wrapInt n :=
  wrapInt_of_range _ (wrapInt_range n).1 (wrapInt_range n).2

theorem wrapInt_add_left (a b : Int) : wrapInt (wrapInt a + b) = wrapInt (a + b) := by
  unfold wrapInt
  omega

/-! ## Rounding to the nearest integer -/

theorem roundEven_intCast (n : Int) : roundEven (n : ℚ) = n := by
  simp [roundEven]

theorem roundEven_le (y : ℚ) : (roundEven y : ℚ) ≤ y + 1 / 2 := by
  have h1 : (⌊y⌋ : ℚ) ≤ y := Int.floor_le y
  unfold roundEven
  split_ifs with h2 h3 h4
  · linarith
  · push_cast; linarith
  · linarith
  · push_cast; linarith

theorem le_roundEven (y : ℚ) : y - 1 / 2 ≤ (roundEven y : ℚ) := by
  have h1 : y < (⌊y⌋ : ℚ) + 1 := Int.lt_floor_add_one y
  unfold roundEven
  split_ifs with h2 h3 h4
  · linarith
  · push_cast; linarith
  · linarith
  · push_cast; linarith

theorem roundEven_eq_of_close (y : ℚ) (m : Int) (h : |y - (m : ℚ)| < 1 / 2) :
    roundEven y = m := by
  have h1 := roundEven_le y
  have h2 := le_roundEven y
  obtain ⟨h3, h4⟩ := abs_lt.mp h
  have h5 : ((roundEven y - m : Int) : ℚ) < 1 := by push_cast; linarith
  have h6 : (-1 : ℚ) < ((roundEven y - m : Int) : ℚ) := by push_cast; linarith
  have h7 : roundEven y - m < 1 := by exact_mod_cast h5
  have h8 : -1 < roundEven y - m := by exact_mod_cast h6
  omega

theorem roundEven_mono (y z : ℚ) (h : y ≤ z) : roundEven y ≤ roundEven z := by
  by_contra hcon
  have hlt : roundEven z + 1 ≤ roundEven y := by omega
  have hq : (roundEven z : ℚ) + 1 ≤ (roundEven y : ℚ) := by exact_mod_cast hlt
  have h1 := roundEven_le y
  have h2 := le_roundEven z
  have hyz : y = z := by linarith
  rw [hyz] at hlt
  omega

/-! ## Rounding to float64 -/

theorem two_zpow_pos (k : Int) : (0 : ℚ) < 2 ^ k := zpow_pos (by norm_num) k

theorem log_spec (x : ℚ) (hx : 0 < x) :
    (2 : ℚ) ^ Int.log 2 x ≤ x ∧ x < (2 : ℚ) ^ (Int.log 2 x + 1) := by
  have h1 := Int.zpow_log_le_self (b := 2) (r := x) (by norm_num) hx
  have h2 := Int.lt_zpow_succ_log_self (b := 2) (by norm_num) x
  exact ⟨by exact_mod_cast h1, by exact_mod_cast h2⟩

theorem log_eq_of_bounds (x : ℚ) (e : Int) (h1 : (2 : ℚ) ^ e ≤ x) (h2 : x < (2 : ℚ) ^ (e + 1)) :
    Int.log 2 x = e := by
  have hx : 0 < x := lt_of_lt_of_le (two_zpow_pos e) h1
  have a : e ≤ Int.log 2 x :=
    (Int.zpow_le_iff_le_log (b := 2) (by norm_num) hx).mp (by exact_mod_cast h1)
  have b : Int.log 2 x < e + 1 :=
    (Int.lt_zpow_iff_log_lt (b := 2) (by norm_num) hx).mp (by exact_mod_cast h2)
  omega

theorem zpow_log_eq (x : ℚ) :
    (2 : ℚ) ^ Int.log 2 x = 2 ^ (52 : Int) * 2 ^ ulpExp x ∧
    (2 : ℚ) ^ (Int.log 2 x + 1) = 2 ^ (53 : Int) * 2 ^ ulpExp x := by
  constructor
  · rw [← zpow_add₀ (by norm_num : (2 : ℚ) ≠ 0)]
    congr 1
    unfold ulpExp
    ring
  · rw [← zpow_add₀ (by norm_num : (2 : ℚ) ≠ 0)]
    congr 1
    unfold ulpExp
    ring

/-- The scaled value lies in the range of the 53-bit significands. -/
theorem scaled_bounds (x : ℚ) (hx : 0 < x) :
    (2 : ℚ) ^ (52 : Int) ≤ x / 2 ^ ulpExp x ∧ x / 2 ^ ulpExp x < (2 : ℚ) ^ (53 : Int) := by
  obtain ⟨h1, h2⟩ := log_spec x hx
  obtain ⟨e1, e2⟩ := zpow_log_eq x
  have hp := two_zpow_pos (ulpExp x)
  constructor
  · rw [le_div_iff₀ hp, ← e1]
    exact h1
  · rw [div_lt_iff₀ hp, ← e2]
    exact h2

theorem roundPos_bounds (x : ℚ) (hx : 0 < x) :
    (2 : ℚ) ^ Int.log 2 x ≤ roundPos x ∧ roundPos x ≤ (2 : ℚ) ^ (Int.log 2 x + 1) := by
  obtain ⟨h1, h2⟩ := scaled_bounds x hx
  obtain ⟨e1, e2⟩ := zpow_log_eq x
  have hp := two_zpow_pos (ulpExp x)
  have c52 : ((2 ^ 52 : Int) : ℚ) = (2 : ℚ) ^ (52 : Int) := by norm_num
  have c53 : ((2 ^ 53 : Int) : ℚ) = (2 : ℚ) ^ (53 : Int) := by norm_num
  have a : (2 : ℚ) ^ (52 : Int) ≤ (roundEven (x / 2 ^ ulpExp x) : ℚ) := by
    have := roundEven_mono ((2 ^ 52 : Int) : ℚ) (x / 2 ^ ulpExp x) (by rw [c52]; exact h1)
    rw [roundEven_intCast] at this
    rw [← c52]
    exact_mod_cast this
  have b : (roundEven (x / 2 ^ ulpExp x) : ℚ) ≤ (2 : ℚ) ^ (53 : Int) := by
    have := roundEven_mono (x / 2 ^ ulpExp x) ((2 ^ 53 : Int) : ℚ) (by rw [c53]; exact h2.le)
    rw [roundEven_intCast] at this
    rw [← c53]
    exact_mod_cast this
  unfold roundPos
  rw [e1, e2]
  exact ⟨mul_le_mul_of_nonneg_right a hp.le, mul_le_mul_of_nonneg_right b hp.le⟩

theorem roundPos_pos (x : ℚ) (hx : 0 < x) : 0 < roundPos x :=
  lt_of_lt_of_le (two_zpow_pos _) (roundPos_bounds x hx).1

theorem roundPos_mono (x y : ℚ) (hx : 0 < x) (h : x ≤ y) : roundPos x ≤ roundPos y := by
  have hy : 0 < y := lt_of_lt_of_le hx h
  have hlog : Int.log 2 x ≤ Int.log 2 y := Int.log_mono_right hx h
  rcases eq_or_lt_of_le hlog with heq | hlt
  · have hu : ulpExp x = ulpExp y := by unfold ulpExp; rw [heq]
    unfold roundPos
    rw [hu]
    have hp := two_zpow_pos (ulpExp y)
    have hr := roundEven_mono (x / 2 ^ ulpExp y) (y / 2 ^ ulpExp y)
      (div_le_div_of_nonneg_right h hp.le)
    have hr' : (roundEven (x / 2 ^ ulpExp y) : ℚ) ≤ (roundEven (y / 2 ^ ulpExp y) : ℚ) := by
      exact_mod_cast hr
    exact mul_le_mul_of_nonneg_right hr' hp.le
  · have h1 := (roundPos_bounds x hx).2
    have h2 := (roundPos_bounds y hy).1
    have h3 : (2 : ℚ) ^ (Int.log 2 x + 1) ≤ 2 ^ Int.log 2 y :=
      zpow_le_zpow_right₀ (by norm_num) (by omega)
    linarith

theorem f64_zero : f64 0 = 0 := by simp [f64]

theorem f64_of_pos (x : ℚ) (hx : 0 < x) : f64 x = roundPos x := by simp [f64, hx]

theorem f64_of_neg (x : ℚ) (hx : x < 0) : f64 x = -roundPos (-x) := by
  simp [f64, hx, not_lt.mpr hx.le]

theorem f64_neg (x : ℚ) : f64 (-x) = -f64 x := by
  rcases lt_trichotomy x 0 with h | h | h
  · rw [f64_of_neg x h, f64_of_pos (-x) (by linarith), neg_neg]
  · rw [h]; simp [f64_zero]
  · rw [f64_of_pos x h, f64_of_neg (-x) (by linarith), neg_neg]

theorem f64_pos (x : ℚ) (hx : 0 < x) : 0 < f64 x := by
  rw [f64_of_pos x hx]; exact roundPos_pos x hx

theorem f64_lt_zero (x : ℚ) (hx : x < 0) : f64 x < 0 := by
  rw [f64_of_neg x hx]
  have := roundPos_pos (-x) (by linarith)
  linarith

theorem f64_nonneg_iff (x : ℚ) : 0 ≤ f64 x ↔ 0 ≤ x := by
  constructor
  · intro h
    by_contra hx
    have := f64_lt_zero x (not_le.mp hx)
    linarith
  · intro h
    rcases eq_or_lt_of_le h with h0 | h0
    · rw [← h0, f64_zero]
    · exact (f64_pos x h0).le

theorem f64_eq_zero_iff (x : ℚ) : f64 x = 0 ↔ x = 0 := by
  constructor
  · intro h
    rcases lt_trichotomy x 0 with h1 | h1 | h1
    · have := f64_lt_zero x h1; linarith
    · exact h1
    · have := f64_pos x h1; linarith
  · intro h
    rw [h, f64_zero]

/-- Rounding to float64 is monotone. -/
theorem f64_mono (x y : ℚ) (h : x ≤ y) : f64 x ≤ f64 y := by
  rcases lt_trichotomy x 0 with hx | hx | hx
  · rcases lt_trichotomy y 0 with hy | hy | hy
    · rw [f64_of_neg x hx, f64_of_neg y hy]
      have := roundPos_mono (-y) (-x) (by linarith) (by linarith)
      linarith
    · rw [hy, f64_zero]; exact (f64_lt_zero x hx).le
    · exact le_trans (f64_lt_zero x hx).le (f64_pos y hy).le
  · rw [hx, f64_zero]
    exact (f64_nonneg_iff y).mpr (by linarith)
  · have hy : 0 < y := lt_of_lt_of_le hx h
    rw [f64_of_pos x hx, f64_of_pos y hy]
    exact roundPos_mono x y hx h

/-- The float64 nearest to a positive value, from its binade and its nearest significand. -/
theorem roundPos_eq (x : ℚ) (e m : Int) (h1 : (2 : ℚ) ^ e ≤ x) (h2 : x < (2 : ℚ) ^ (e + 1))
    (h3 : |x / 2 ^ (e - 52) - (m : ℚ)| < 1 / 2) : roundPos x = (m : ℚ) * 2 ^ (e - 52) := by
  have hlog := log_eq_of_bounds x e h1 h2
  have hu : ulpExp x = e - 52 := by unfold ulpExp; rw [hlog]
  unfold roundPos
  rw [hu, roundEven_eq_of_close _ m h3]

/-- A value that is a multiple of its unit in the last place is a float64. -/
theorem roundPos_of_exact (x : ℚ) (m : Int) (h : x = (m : ℚ) * 2 ^ ulpExp x) :
    roundPos x = x := by
  have hp := two_zpow_pos (ulpExp x)
  have hy : x / 2 ^ ulpExp x = (m : ℚ) := by
    rw [div_eq_iff (ne_of_gt hp)]
    exact h
  unfold roundPos
  rw [hy, roundEven_intCast]
  exact h.symm

theorem roundPos_natCast (n : ℕ) (h0 : 0 < n) (h : n < 2 ^ 53) : roundPos (n : ℚ) = n := by
  have hx : (0 : ℚ) < (n : ℚ) := by exact_mod_cast h0
  have hlog : Int.log 2 (n : ℚ) < 53 := by
    rw [← Int.lt_zpow_iff_log_lt (b := 2) (by norm_num) hx]
    exact_mod_cast h
  have hu : ulpExp (n : ℚ) ≤ 0 := by unfold ulpExp; omega
  obtain ⟨k, hk⟩ : ∃ k : ℕ, ulpExp (n : ℚ) = -(k : Int) :=
    ⟨(-ulpExp (n : ℚ)).toNat, by omega⟩
  refine roundPos_of_exact (n : ℚ) ((n * 2 ^ k : ℕ) : Int) ?_
  rw [hk, zpow_neg, zpow_natCast]
  push_cast
  field_simp

/-- Every integer of magnitude below 2^53 is a float64: its conversion is exact. -/
theorem f64_intCast (n : Int) (h : |n| < 2 ^ 53) : f64 (n : ℚ) = n := by
  obtain ⟨h1, h2⟩ := abs_lt.mp h
  rcases lt_trichotomy n 0 with hn | hn | hn
  · have hq : ((n : ℚ)) < 0 := by exact_mod_cast hn
    rw [f64_of_neg _ hq]
    have hm : (-(n : ℚ)) = (((-n).toNat : ℕ) : ℚ) := by
      have : ((-n).toNat : Int) = -n := Int.toNat_of_nonneg (by omega)
      have h3 : (((-n).toNat : Int) : ℚ) = ((-n : Int) : ℚ) := by rw [this]
      push_cast at h3
      rw [← h3]
    rw [hm, roundPos_natCast _ (by omega) (by omega), ← hm]
    ring
  · rw [hn]; simp [f64_zero]
  · have hq : (0 : ℚ) < (n : ℚ) := by exact_mod_cast hn
    rw [f64_of_pos _ hq]
    have hm : (n : ℚ) = ((n.toNat : ℕ) : ℚ) := by
      have : (n.toNat : Int) = n := Int.toNat_of_nonneg (by omega)
      have h3 : ((n.toNat : Int) : ℚ) = (n : ℚ) := by rw [this]
      push_cast at h3
      rw [← h3]
    rw [hm, roundPos_natCast _ (by omega) (by omega)]

/-- Rounding to float64 changes a value by at most the fraction 2^-53 of its magnitude. -/
theorem f64_close (x : ℚ) : |f64 x - x| ≤ |x| / 2 ^ 53 := by
  have key : ∀ z : ℚ, 0 < z → |roundPos z - z| ≤ z / 2 ^ 53 := by
    intro z hz
    have hp := two_zpow_pos (ulpExp z)
    obtain ⟨e1, _⟩ := zpow_log_eq z
    have hlow := (log_spec z hz).1
    have h1 := roundEven_le (z / 2 ^ ulpExp z)
    have h2 := le_roundEven (z / 2 ^ ulpExp z)
    have hz' : z = z / 2 ^ ulpExp z * 2 ^ ulpExp z := by field_simp
    have hu : (2 : ℚ) ^ ulpExp z ≤ z / 2 ^ 52 := by
      rw [le_div_iff₀ (by norm_num)]
      rw [e1] at hlow
      have : (2 : ℚ) ^ (52 : Int) = 2 ^ 52 := by norm_cast
      rw [this] at hlow
      linarith
    have hd : roundPos z - z =
        ((roundEven (z / 2 ^ ulpExp z) : ℚ) - z / 2 ^ ulpExp z) * 2 ^ ulpExp z := by
      unfold roundPos
      field_simp
    rw [hd, abs_mul, abs_of_pos hp]
    have ha : |(roundEven (z / 2 ^ ulpExp z) : ℚ) - z / 2 ^ ulpExp z| ≤ 1 / 2 :=
      abs_le.mpr ⟨by linarith, by linarith⟩
    calc |(roundEven (z / 2 ^ ulpExp z) : ℚ) - z / 2 ^ ulpExp z| * 2 ^ ulpExp z
        ≤ 1 / 2 * 2 ^ ulpExp z := mul_le_mul_of_nonneg_right ha hp.le
      _ ≤ 1 / 2 * (z / 2 ^ 52) := by linarith
      _ = z / 2 ^ 53 := by ring
  rcases lt_trichotomy x 0 with hx | hx | hx
  · rw [f64_of_neg x hx, abs_of_neg hx]
    have := key (-x) (by linarith)
    rw [show -roundPos (-x) - x = -(roundPos (-x) - -x) by ring, abs_neg]
    exact this
  · rw [hx, f64_zero]; simp
  · rw [f64_of_pos x hx, abs_of_pos hx]
    exact key x hx

/-- The float64 nearest to a positive value, from its binade and its nearest significand. -/
theorem f64_eq (x : ℚ) (e m : Int) (h1 : (2 : ℚ) ^ e ≤ x) (h2 : x < (2 : ℚ) ^ (e + 1))
    (h3 : |x / 2 ^ (e - 52) - (m : ℚ)| < 1 / 2) : f64 x = (m : ℚ) * 2 ^ (e - 52) := by
  have hx : 0 < x := lt_of_lt_of_le (two_zpow_pos e) h1
  rw [f64_of_pos x hx]
  exact roundPos_eq x e m h1 h2 h3

/-! ## The expression `float64(a) / float64(b) * 100` -/

theorem f64_one : f64 1 = 1 := by
  simpa using f64_intCast 1 (by norm_num)

theorem f64_hundred : f64 100 = 100 := by
  simpa using f64_intCast 100 (by norm_num)

theorem f64_intCast_pos (b : Int) (hb : 0 < b) : 0 < f64 (b : ℚ) :=
  f64_pos _ (by exact_mod_cast hb)

theorem ratioTimes100_nonneg_iff (a b : Int) (hb : 0 < b) :
    0 ≤ ratioTimes100 a b ↔ 0 ≤ a := by
  have hB := f64_intCast_pos b hb
  unfold ratioTimes100
  rw [f64_nonneg_iff, mul_nonneg_iff_of_pos_right (by norm_num : (0 : ℚ) < 100),
    f64_nonneg_iff, div_nonneg_iff]
  constructor
  · rintro (⟨h1, _⟩ | ⟨_, h2⟩)
    · exact_mod_cast (f64_nonneg_iff _).mp h1
    · linarith
  · intro h
    exact Or.inl ⟨(f64_nonneg_iff _).mpr (by exact_mod_cast h), hB.le⟩

theorem ratioTimes100_eq_zero_iff (a b : Int) (hb : 0 < b) :
    ratioTimes100 a b = 0 ↔ a = 0 := by
  have hB := f64_intCast_pos b hb
  unfold ratioTimes100
  rw [f64_eq_zero_iff, mul_eq_zero, f64_eq_zero_iff, div_eq_zero_iff, f64_eq_zero_iff]
  constructor
  · rintro ((h | h) | h)
    · exact_mod_cast h
    · linarith
    · norm_num at h
  · intro h
    exact Or.inl (Or.inl (by exact_mod_cast h))

/-- A usage that reaches the limit gives at least 100 before the cap. -/
theorem ratioTimes100_ge_hundred (a b : Int) (hb : 0 < b) (h : b ≤ a) :
    100 ≤ ratioTimes100 a b := by
  have hB := f64_intCast_pos b hb
  have hAB : f64 (b : ℚ) ≤ f64 (a : ℚ) := f64_mono _ _ (by exact_mod_cast h)
  have h1 : 1 ≤ f64 (a : ℚ) / f64 (b : ℚ) := (one_le_div hB).mpr hAB
  have h2 : 1 ≤ f64 (f64 (a : ℚ) / f64 (b : ℚ)) := by
    have := f64_mono _ _ h1
    rwa [f64_one] at this
  have h3 : (100 : ℚ) ≤ f64 (f64 (a : ℚ) / f64 (b : ℚ)) * 100 := by linarith
  have := f64_mono _ _ h3
  rwa [f64_hundred] at this

/-- A part of a whole gives at most 100. -/
theorem ratioTimes100_le_hundred (a b : Int) (hb : 0 < b) (h : a ≤ b) :
    ratioTimes100 a b ≤ 100 := by
  have hB := f64_intCast_pos b hb
  have hAB : f64 (a : ℚ) ≤ f64 (b : ℚ) := f64_mono _ _ (by exact_mod_cast h)
  have h1 : f64 (a : ℚ) / f64 (b : ℚ) ≤ 1 := (div_le_one hB).mpr hAB
  have h2 : f64 (f64 (a : ℚ) / f64 (b : ℚ)) ≤ 1 := by
    have := f64_mono _ _ h1
    rwa [f64_one] at this
  have h3 : f64 (f64 (a : ℚ) / f64 (b : ℚ)) * 100 ≤ (100 : ℚ) := by linarith
  have := f64_mono _ _ h3
  rwa [f64_hundred] at this

/-- On operands that convert exactly, the expression grows with the exact ratio. -/
theorem ratioTimes100_mono (a1 b1 a2 b2 : Int) (hb1 : 0 < b1) (hb2 : 0 < b2)
    (ea1 : |a1| < 2 ^ 53) (eb1 : |b1| < 2 ^ 53) (ea2 : |a2| < 2 ^ 53) (eb2 : |b2| < 2 ^ 53)
    (h : a1 * b2 ≤ a2 * b1) : ratioTimes100 a1 b1 ≤ ratioTimes100 a2 b2 := by
  have h1 : (0 : ℚ) < (b1 : ℚ) := by exact_mod_cast hb1
  have h2 : (0 : ℚ) < (b2 : ℚ) := by exact_mod_cast hb2
  have hq : (a1 : ℚ) * (b2 : ℚ) ≤ (a2 : ℚ) * (b1 : ℚ) := by exact_mod_cast h
  unfold ratioTimes100
  rw [f64_intCast a1 ea1, f64_intCast b1 eb1, f64_intCast a2 ea2, f64_intCast b2 eb2]
  apply f64_mono
  have hd : (a1 : ℚ) / (b1 : ℚ) ≤ (a2 : ℚ) / (b2 : ℚ) := by
    rw [div_le_div_iff₀ h1 h2]
    exact hq
  have := f64_mono _ _ hd
  linarith

/-- One rounding of a non-negative value, from above. -/
theorem f64_le_mul (x hi : ℚ) (h0 : 0 ≤ x) (h : x ≤ hi) : f64 x ≤ hi * (1 + 1 / 2 ^ 53) := by
  have hc := f64_close x
  rw [abs_of_nonneg h0] at hc
  have h1 := (abs_le.mp hc).2
  have h2 : x * (1 + 1 / 2 ^ 53) ≤ hi * (1 + 1 / 2 ^ 53) :=
    mul_le_mul_of_nonneg_right h (by norm_num)
  linarith

/-- One rounding of a non-negative value, from below. -/
theorem mul_le_f64 (lo x : ℚ) (h0 : 0 ≤ lo) (h : lo ≤ x) : lo * (1 - 1 / 2 ^ 53) ≤ f64 x := by
  have hx : 0 ≤ x := le_trans h0 h
  have hc := f64_close x
  rw [abs_of_nonneg hx] at hc
  have h1 := (abs_le.mp hc).1
  have h2 : lo * (1 - 1 / 2 ^ 53) ≤ x * (1 - 1 / 2 ^ 53) :=
    mul_le_mul_of_nonneg_right h (by norm_num)
  linarith

/-- The four roundings of the expression change the exact value `100 * a / b` by at most the
fraction 2^-50 of it. -/
theorem ratioTimes100_close (a b : Int) (ha : 0 ≤ a) (hb : 0 < b) :
    |ratioTimes100 a b - 100 * (a : ℚ) / (b : ℚ)| ≤ 100 * (a : ℚ) / (b : ℚ) / 2 ^ 50 := by
  have ha' : (0 : ℚ) ≤ (a : ℚ) := by exact_mod_cast ha
  have hb' : (0 : ℚ) < (b : ℚ) := by exact_mod_cast hb
  have hx : (0 : ℚ) ≤ (a : ℚ) / (b : ℚ) := div_nonneg ha' hb'.le
  have hA0 : 0 ≤ f64 (a : ℚ) := (f64_nonneg_iff _).mpr ha'
  have hB0 := f64_intCast_pos b hb
  have hAu := f64_le_mul (a : ℚ) (a : ℚ) ha' le_rfl
  have hAl := mul_le_f64 (a : ℚ) (a : ℚ) ha' le_rfl
  have hBu := f64_le_mul (b : ℚ) (b : ℚ) hb'.le le_rfl
  have hBl := mul_le_f64 (b : ℚ) (b : ℚ) hb'.le le_rfl
  have hBl0 : (0 : ℚ) < (b : ℚ) * (1 - 1 / 2 ^ 53) := mul_pos hb' (by norm_num)
  have hq0 : 0 ≤ f64 (a : ℚ) / f64 (b : ℚ) := div_nonneg hA0 hB0.le
  have hqu : f64 (a : ℚ) / f64 (b : ℚ) ≤
      (a : ℚ) / (b : ℚ) * ((1 + 1 / 2 ^ 53) / (1 - 1 / 2 ^ 53)) := by
    have h1 : f64 (a : ℚ) / f64 (b : ℚ) ≤
        (a : ℚ) * (1 + 1 / 2 ^ 53) / ((b : ℚ) * (1 - 1 / 2 ^ 53)) :=
      div_le_div₀ (mul_nonneg ha' (by norm_num)) hAu hBl0 hBl
    have h2 : (a : ℚ) * (1 + 1 / 2 ^ 53) / ((b : ℚ) * (1 - 1 / 2 ^ 53)) =
        (a : ℚ) / (b : ℚ) * ((1 + 1 / 2 ^ 53) / (1 - 1 / 2 ^ 53)) := by
      field_simp
    linarith
  have hql : (a : ℚ) / (b : ℚ) * ((1 - 1 / 2 ^ 53) / (1 + 1 / 2 ^ 53)) ≤
      f64 (a : ℚ) / f64 (b : ℚ) := by
    have h1 : (a : ℚ) * (1 - 1 / 2 ^ 53) / ((b : ℚ) * (1 + 1 / 2 ^ 53)) ≤
        f64 (a : ℚ) / f64 (b : ℚ) :=
      div_le_div₀ hA0 hAl hB0 hBu
    have h2 : (a : ℚ) * (1 - 1 / 2 ^ 53) / ((b : ℚ) * (1 + 1 / 2 ^ 53)) =
        (a : ℚ) / (b : ℚ) * ((1 - 1 / 2 ^ 53) / (1 + 1 / 2 ^ 53)) := by
      field_simp
    linarith
  have hl0 : (0 : ℚ) ≤ (a : ℚ) / (b : ℚ) * ((1 - 1 / 2 ^ 53) / (1 + 1 / 2 ^ 53)) :=
    mul_nonneg hx (by norm_num)
  have hQu := f64_le_mul _ _ hq0 hqu
  have hQl := mul_le_f64 _ _ hl0 hql
  have hQ0 : 0 ≤ f64 (f64 (a : ℚ) / f64 (b : ℚ)) := (f64_nonneg_iff _).mpr hq0
  have hPu := f64_le_mul (f64 (f64 (a : ℚ) / f64 (b : ℚ)) * 100)
    ((a : ℚ) / (b : ℚ) * ((1 + 1 / 2 ^ 53) / (1 - 1 / 2 ^ 53)) * (1 + 1 / 2 ^ 53) * 100)
    (by linarith) (by linarith)
  have hPl := mul_le_f64
    ((a : ℚ) / (b : ℚ) * ((1 - 1 / 2 ^ 53) / (1 + 1 / 2 ^ 53)) * (1 - 1 / 2 ^ 53) * 100)
    (f64 (f64 (a : ℚ) / f64 (b : ℚ)) * 100)
    (by
      have := mul_nonneg hl0 (by norm_num : (0 : ℚ) ≤ 1 - 1 / 2 ^ 53)
      linarith)
    (by linarith)
  have eu : (a : ℚ) / (b : ℚ) * ((1 + 1 / 2 ^ 53) / (1 - 1 / 2 ^ 53)) * (1 + 1 / 2 ^ 53) * 100 *
      (1 + 1 / 2 ^ 53) = (a : ℚ) / (b : ℚ) *
        ((1 + 1 / 2 ^ 53) / (1 - 1 / 2 ^ 53) * (1 + 1 / 2 ^ 53) * 100 * (1 + 1 / 2 ^ 53)) := by
    ring
  have el : (a : ℚ) / (b : ℚ) * ((1 - 1 / 2 ^ 53) / (1 + 1 / 2 ^ 53)) * (1 - 1 / 2 ^ 53) * 100 *
      (1 - 1 / 2 ^ 53) = (a : ℚ) / (b : ℚ) *
        ((1 - 1 / 2 ^ 53) / (1 + 1 / 2 ^ 53) * (1 - 1 / 2 ^ 53) * 100 * (1 - 1 / 2 ^ 53)) := by
    ring
  have cu : (1 + 1 / 2 ^ 53) / (1 - 1 / 2 ^ 53) * (1 + 1 / 2 ^ 53) * 100 * (1 + 1 / 2 ^ 53) ≤
      (100 + 100 / 2 ^ 50 : ℚ) := by norm_num
  have cl : (100 - 100 / 2 ^ 50 : ℚ) ≤
      (1 - 1 / 2 ^ 53) / (1 + 1 / 2 ^ 53) * (1 - 1 / 2 ^ 53) * 100 * (1 - 1 / 2 ^ 53) := by
    norm_num
  have hu := mul_le_mul_of_nonneg_left cu hx
  have hl := mul_le_mul_of_nonneg_left cl hx
  have et : 100 * (a : ℚ) / (b : ℚ) = (a : ℚ) / (b : ℚ) * 100 := by ring
  unfold ratioTimes100
  rw [abs_le, et]
  constructor
  · rw [el] at hPl
    linarith
  · rw [eu] at hPu
    linarith

/-- The evaluation of the expression on operands that convert exactly, from the two rounded
intermediate values. -/
theorem ratioTimes100_eval (a b : Int) (q p : ℚ) (ea : |a| < 2 ^ 53) (eb : |b| < 2 ^ 53)
    (hq : f64 ((a : ℚ) / (b : ℚ)) = q) (hp : f64 (q * 100) = p) : ratioTimes100 a b = p := by
  unfold ratioTimes100
  rw [f64_intCast a ea, f64_intCast b eb, hq, hp]

theorem ratioTimes100_7_25 : ratioTimes100 7 25 = 7881299347898369 / 281474976710656 := by
  refine ratioTimes100_eval 7 25 (1261007895663739 / 4503599627370496) _
    (by norm_num) (by norm_num) ?_ ?_
  · rw [f64_eq _ (-2) 5044031582654956 (by norm_num) (by norm_num)
      (by rw [abs_lt]; constructor <;> norm_num)]
    norm_num
  · rw [f64_eq _ 4 7881299347898369 (by norm_num) (by norm_num)
      (by rw [abs_lt]; constructor <;> norm_num)]
    norm_num

theorem ratioTimes100_1_3 : ratioTimes100 1 3 = 2345624805922133 / 70368744177664 := by
  refine ratioTimes100_eval 1 3 (6004799503160661 / 18014398509481984) _
    (by norm_num) (by norm_num) ?_ ?_
  · rw [f64_eq _ (-2) 6004799503160661 (by norm_num) (by norm_num)
      (by rw [abs_lt]; constructor <;> norm_num)]
    norm_num
  · rw [f64_eq _ 5 4691249611844266 (by norm_num) (by norm_num)
      (by rw [abs_lt]; constructor <;> norm_num)]
    norm_num

theorem ratioTimes100_26_125 : ratioTimes100 26 125 = 5854679515581645 / 281474976710656 := by
  refine ratioTimes100_eval 26 125 (7493989779944505 / 36028797018963968) _
    (by norm_num) (by norm_num) ?_ ?_
  · rw [f64_eq _ (-3) 7493989779944505 (by norm_num) (by norm_num)
      (by rw [abs_lt]; constructor <;> norm_num)]
    norm_num
  · rw [f64_eq _ 4 5854679515581645 (by norm_num) (by norm_num)
      (by rw [abs_lt]; constructor <;> norm_num)]
    norm_num

theorem ratioTimes100_1_25 : ratioTimes100 1 25 = 4 := by
  refine ratioTimes100_eval 1 25 (5764607523034235 / 144115188075855872) _
    (by norm_num) (by norm_num) ?_ ?_
  · rw [f64_eq _ (-5) 5764607523034235 (by norm_num) (by norm_num)
      (by rw [abs_lt]; constructor <;> norm_num)]
    norm_num
  · rw [f64_eq _ 2 4503599627370496 (by norm_num) (by norm_num)
      (by rw [abs_lt]; constructor <;> norm_num)]
    norm_num

theorem ratioTimes100_25_100 : ratioTimes100 25 100 = 25 := by
  refine ratioTimes100_eval 25 100 (1 / 4) _ (by norm_num) (by norm_num) ?_ ?_
  · rw [f64_eq _ (-2) 4503599627370496 (by norm_num) (by norm_num)
      (by rw [abs_lt]; constructor <;> norm_num)]
    norm_num
  · rw [f64_eq _ 4 7036874417766400 (by norm_num) (by norm_num)
      (by rw [abs_lt]; constructor <;> norm_num)]
    norm_num

theorem ratioTimes100_neg2_50 : ratioTimes100 (-2) 50 = -4 := by
  refine ratioTimes100_eval (-2) 50 (-(5764607523034235 / 144115188075855872)) _
    (by norm_num) (by norm_num) ?_ ?_
  · rw [show (((-2 : Int) : ℚ)) / ((50 : Int) : ℚ) = -(1 / 25) by norm_num, f64_neg,
      f64_eq _ (-5) 5764607523034235 (by norm_num) (by norm_num)
        (by rw [abs_lt]; constructor <;> norm_num)]
    norm_num
  · rw [show -(5764607523034235 / 144115188075855872 : ℚ) * 100 =
        -(5764607523034235 / 144115188075855872 * 100) by ring, f64_neg,
      f64_eq _ 2 4503599627370496 (by norm_num) (by norm_num)
        (by rw [abs_lt]; constructor <;> norm_num)]
    norm_num

theorem ratioTimes100_neg5_5 : ratioTimes100 (-5) 5 = -100 := by
  refine ratioTimes100_eval (-5) 5 (-1) _ (by norm_num) (by norm_num) ?_ ?_
  · rw [show (((-5 : Int) : ℚ)) / ((5 : Int) : ℚ) = -1 by norm_num, f64_neg, f64_one]
  · rw [show (-1 : ℚ) * 100 = -100 by norm_num, f64_neg, f64_hundred]

/-! ## The row loop and the finalisation, field by field -/

theorem rowLoop_nil (st : LoopState) : rowLoop st [] = st := rfl

theorem rowLoop_cons (st : LoopState) (channel : Channel) (rows : List Channel) :
    rowLoop st (channel :: rows) = rowLoop (rowBody st channel) rows := rfl

theorem rowLoop_channelViews (st : LoopState) (rows : List Channel) :
    (rowLoop st rows).channelViews = st.channelViews ++ rows.map classify := by
  induction rows generalizing st with
  | nil => simp [rowLoop_nil]
  | cons c rows ih => rw [rowLoop_cons, ih]; simp [rowBody]

/-- The minute usage total after the loop is the sum of the usages modulo 2^64. -/
theorem rowLoop_TotalMinuteUsage (st : LoopState) (rows : List Channel) :
    wrapInt (rowLoop st rows).summary.TotalMinuteUsage =
      wrapInt (st.summary.TotalMinuteUsage + (rows.map (fun c => c.CountMinuteUsage)).sum) := by
  induction rows generalizing st with
  | nil => simp [rowLoop_nil]
  | cons c rows ih =>
    rw [rowLoop_cons, ih]
    have hb : (rowBody st c).summary.TotalMinuteUsage =
        wrapInt (st.summary.TotalMinuteUsage + c.CountMinuteUsage) := by
      by_cases hg : c.Tag = "gcp" <;> simp [rowBody, hg]
    rw [hb, wrapInt_add_left, List.map_cons, List.sum_cons, add_assoc]

/-- A minute usage total in the 64-bit range stays in the 64-bit range. -/
theorem rowLoop_TotalMinuteUsage_range (st : LoopState) (rows : List Channel)
    (h : wrapInt st.summary.TotalMinuteUsage = st.summary.TotalMinuteUsage) :
    wrapInt (rowLoop st rows).summary.TotalMinuteUsage =
      (rowLoop st rows).summary.TotalMinuteUsage := by
  induction rows generalizing st with
  | nil => simpa [rowLoop_nil] using h
  | cons c rows ih =>
    rw [rowLoop_cons]
    apply ih
    have hb : (rowBody st c).summary.TotalMinuteUsage =
        wrapInt (st.summary.TotalMinuteUsage + c.CountMinuteUsage) := by
      by_cases hg : c.Tag = "gcp" <;> simp [rowBody, hg]
    rw [hb, wrapInt_wrapInt]

/-- The day usage total after the loop is the sum of the usages modulo 2^64. -/
theorem rowLoop_TotalDayUsage (st : LoopState) (rows : List Channel) :
    wrapInt (rowLoop st rows).summary.TotalDayUsage =
      wrapInt (st.summary.TotalDayUsage + (rows.map (fun c => c.CountDayUsage)).sum) := by
  induction rows generalizing st with
  | nil => simp [rowLoop_nil]
  | cons c rows ih =>
    rw [rowLoop_cons, ih]
    have hb : (rowBody st c).summary.TotalDayUsage =
        wrapInt (st.summary.TotalDayUsage + c.CountDayUsage) := by
      by_cases hg : c.Tag = "gcp" <;> simp [rowBody, hg]
    rw [hb, wrapInt_add_left, List.map_cons, List.sum_cons, add_assoc]

/-- A day usage total in the 64-bit range stays in the 64-bit range. -/
theorem rowLoop_TotalDayUsage_range (st : LoopState) (rows : List Channel)
    (h : wrapInt st.summary.TotalDayUsage = st.summary.TotalDayUsage) :
    wrapInt (rowLoop st rows).summary.TotalDayUsage =
      (rowLoop st rows).summary.TotalDayUsage := by
  induction rows generalizing st with
  | nil => simpa [rowLoop_nil] using h
  | cons c rows ih =>
    rw [rowLoop_cons]
    apply ih
    have hb : (rowBody st c).summary.TotalDayUsage =
        wrapInt (st.summary.TotalDayUsage + c.CountDayUsage) := by
      by_cases hg : c.Tag = "gcp" <;> simp [rowBody, hg]
    rw [hb, wrapInt_wrapInt]

theorem rowLoop_TotalMinuteLimit (st : LoopState) (rows : List Channel) :
    (rowLoop st rows).summary.TotalMinuteLimit =
      st.summary.TotalMinuteLimit + (rows.map (fun c => (classify c).MinuteLimit)).sum := by
  induction rows generalizing st with
  | nil => simp [rowLoop_nil]
  | cons c rows ih =>
    rw [rowLoop_cons, ih]
    by_cases hg : c.Tag = "gcp" <;> simp [rowBody, hg, add_assoc]

theorem rowLoop_TotalDayLimit (st : LoopState) (rows : List Channel) :
    (rowLoop st rows).summary.TotalDayLimit =
      st.summary.TotalDayLimit + (rows.map (fun c => (classify c).DayLimit)).sum := by
  induction rows generalizing st with
  | nil => simp [rowLoop_nil]
  | cons c rows ih =>
    rw [rowLoop_cons, ih]
    by_cases hg : c.Tag = "gcp" <;> simp [rowBody, hg, add_assoc]

theorem rowLoop_TotalNormalChannels (st : LoopState) (rows : List Channel) :
    (rowLoop st rows).summary.TotalNormalChannels =
      st.summary.TotalNormalChannels +
        ((rows.countP (fun c => decide (c.Tag ≠ "gcp")) : ℕ) : Int) := by
  induction rows generalizing st with
  | nil => simp [rowLoop_nil]
  | cons c rows ih =>
    rw [rowLoop_cons, ih]
    by_cases hg : c.Tag = "gcp"
    · simp [rowBody, hg]
    · simp [rowBody, hg, List.countP_cons]
      omega

theorem rowLoop_availableNormalChannels (st : LoopState) (rows : List Channel) :
    (rowLoop st rows).availableNormalChannels =
      st.availableNormalChannels +
        ((rows.countP (fun c => decide (c.Tag ≠ "gcp" ∧ c.Status = "1")) : ℕ) : Int) := by
  induction rows generalizing st with
  | nil => simp [rowLoop_nil]
  | cons c rows ih =>
    rw [rowLoop_cons, ih]
    by_cases hg : c.Tag = "gcp"
    · simp [rowBody, hg]
    · by_cases hs : c.Status = "1"
      · simp [rowBody, tierView, statusView, hg, hs, List.countP_cons]
        omega
      · simp [rowBody, tierView, statusView, hg, hs, List.countP_cons]


theorem finalize_TotalMinuteUsage (st : LoopState) :
    (finalize st).TotalMinuteUsage = st.summary.TotalMinuteUsage := by
  unfold finalize; simp only []; split_ifs <;> rfl

theorem finalize_TotalDayUsage (st : LoopState) :
    (finalize st).TotalDayUsage = st.summary.TotalDayUsage := by
  unfold finalize; simp only []; split_ifs <;> rfl

theorem finalize_TotalMinuteLimit (st : LoopState) :
    (finalize st).TotalMinuteLimit = st.summary.TotalMinuteLimit := by
  unfold finalize; simp only []; split_ifs <;> rfl

theorem finalize_TotalDayLimit (st : LoopState) :
    (finalize st).TotalDayLimit = st.summary.TotalDayLimit := by
  unfold finalize; simp only []; split_ifs <;> rfl

theorem finalize_TotalNormalChannels (st : LoopState) :
    (finalize st).TotalNormalChannels = st.summary.TotalNormalChannels := by
  unfold finalize; simp only []; split_ifs <;> rfl

theorem finalize_DisabledNormalChannels (st : LoopState) :
    (finalize st).DisabledNormalChannels =
      st.summary.TotalNormalChannels - st.availableNormalChannels := by
  unfold finalize; simp only []; split_ifs <;> rfl

theorem finalize_MinutePercentage (st : LoopState) :
    (finalize st).MinutePercentage =
      if st.summary.TotalMinuteLimit > 0 then
        (if ratioTimes100 st.summary.TotalMinuteUsage st.summary.TotalMinuteLimit > 100
          then 100
          else ratioTimes100 st.summary.TotalMinuteUsage st.summary.TotalMinuteLimit)
      else st.summary.MinutePercentage := by
  unfold finalize; simp only []; split_ifs <;> rfl

theorem finalize_DayPercentage (st : LoopState) :
    (finalize st).DayPercentage =
      if st.summary.TotalDayLimit > 0 then
        (if ratioTimes100 st.summary.TotalDayUsage st.summary.TotalDayLimit > 100
          then 100
          else ratioTimes100 st.summary.TotalDayUsage st.summary.TotalDayLimit)
      else st.summary.DayPercentage := by
  unfold finalize; simp only []; split_ifs <;> rfl

theorem finalize_DisabledNormalPercentage (st : LoopState) :
    (finalize st).DisabledNormalPercentage =
      if st.summary.TotalNormalChannels > 0 then
        ratioTimes100 (st.summary.TotalNormalChannels - st.availableNormalChannels)
          st.summary.TotalNormalChannels
      else st.summary.DisabledNormalPercentage := by
  unfold finalize; simp only []; split_ifs <;> rfl


/-! ## Ranking claims -/

/-- C1 (as amended): the ranking places paid-tier views before normal-tier views, so that in
the ranked output no view with `IsPaid = false` occurs before a view with `IsPaid = true`; the
scenario input (paid at 10, normal at 90, normal at 5) ranks to paid at 10, normal at 5,
normal at 90. -/
theorem C1_paid_views_rank_first :
    (∀ channelViews : List ChannelView,
      (rank channelViews).Pairwise (fun a b => ¬ (a.IsPaid = false ∧ b.IsPaid = true))) ∧
    rank scenarioInput = [mkView 1 true 10 0, mkView 3 false 5 0, mkView 2 false 90 0] := by
  refine ⟨fun channelViews => ?_, rank_scenarioInput⟩
  refine (rank_pairwise channelViews).imp ?_
  rintro a b hba ⟨ha, hb⟩
  have : less b a = true := (less_iff b a).mpr (Or.inl ⟨hb, ha⟩)
  rw [hba] at this
  exact Bool.noConfusion this

/-- C1 (as stated) fails: on the scenario input the ranked output is not normal at 5, normal
at 90, paid at 10, and a view with `IsPaid = true` does occur before a view with
`IsPaid = false`. -/
theorem C1_counterexample :
    rank scenarioInput ≠ [mkView 3 false 5 0, mkView 2 false 90 0, mkView 1 true 10 0] ∧
    ¬ (rank scenarioInput).Pairwise (fun a b => ¬ (a.IsPaid = true ∧ b.IsPaid = false)) := by
  rw [rank_scenarioInput]
  decide

/-- C2: in the ranked output two views of the same tier appear in ascending `DayPercentage`
order, and with equal `DayPercentage` in ascending `MinutePercentage` order. -/
theorem C2_same_tier_ascending (channelViews : List ChannelView) :
    (rank channelViews).Pairwise (fun a b => a.IsPaid = b.IsPaid →
      a.DayPercentage ≤ b.DayPercentage ∧
      (a.DayPercentage = b.DayPercentage → a.MinutePercentage ≤ b.MinutePercentage)) := by
  refine (rank_pairwise channelViews).imp ?_
  intro a b hba hp
  rw [Bool.eq_false_iff, Ne, less_iff] at hba
  push_neg at hba
  obtain ⟨hd, hm⟩ := hba.2 hp.symm
  exact ⟨hd, fun he => hm he.symm⟩

/-- C3: the ranking is stable. The views that carry a given key triple
(`IsPaid`, `DayPercentage`, `MinutePercentage`) form the same sequence in the ranked output as
in the input; hence two views with identical keys, the first before the second in the input,
appear in that order in the ranked output. -/
theorem C3_rank_stable (channelViews : List ChannelView) :
    (∀ k : Bool × ℚ × ℚ,
      (rank channelViews).filter (fun v => decide (sortKey v = k)) =
        channelViews.filter (fun v => decide (sortKey v = k))) ∧
    (∀ a b : ChannelView, sortKey a = sortKey b →
      List.Sublist [a, b] channelViews → List.Sublist [a, b] (rank channelViews)) := by
  have hfilter : ∀ k : Bool × ℚ × ℚ,
      (rank channelViews).filter (fun v => decide (sortKey v = k)) =
        channelViews.filter (fun v => decide (sortKey v = k)) := by
    intro k
    refine sliceStable_filter less _ ?_ channelViews
    intro a b ha hb
    have ha' : sortKey a = k := by simpa using ha
    have hb' : sortKey b = k := by simpa using hb
    exact less_eq_false_of_sortKey_eq a b (ha'.trans hb'.symm)
  refine ⟨hfilter, ?_⟩
  intro a b hab hsub
  have h1 := hsub.filter (fun v => decide (sortKey v = sortKey a))
  rw [← hfilter (sortKey a)] at h1
  have h2 : [a, b].filter (fun v => decide (sortKey v = sortKey a)) = [a, b] := by
    simp [List.filter_cons, hab]
  rw [h2] at h1
  exact h1.trans (List.filter_sublist _)

/-- C3 at a concrete input: two normal views with the key (false, 5, 0) around a paid view. -/
theorem C3_rank_stable_witness :
    sortKey (mkView 1 false 5 0) = sortKey (mkView 3 false 5 0) ∧
    List.Sublist [mkView 1 false 5 0, mkView 3 false 5 0]
      [mkView 1 false 5 0, mkView 2 true 1 0, mkView 3 false 5 0] ∧
    List.Sublist [mkView 1 false 5 0, mkView 3 false 5 0]
      (rank [mkView 1 false 5 0, mkView 2 true 1 0, mkView 3 false 5 0]) :=
  ⟨by decide, by decide,
    (C3_rank_stable [mkView 1 false 5 0, mkView 2 true 1 0, mkView 3 false 5 0]).2
      (mkView 1 false 5 0) (mkView 3 false 5 0) (by decide) (by decide)⟩


/-! ## Classification claims -/

theorem classify_MinuteLimit (channel : Channel) :
    (classify channel).MinuteLimit = if channel.Tag = "gcp" then 20 else 5 := by
  by_cases hg : channel.Tag = "gcp" <;> simp [classify, tierView, hg]

theorem classify_DayLimit (channel : Channel) :
    (classify channel).DayLimit = if channel.Tag = "gcp" then 100 else 25 := by
  by_cases hg : channel.Tag = "gcp" <;> simp [classify, tierView, hg]

theorem classify_IsPaid (channel : Channel) :
    (classify channel).IsPaid = decide (channel.Tag = "gcp") := by
  by_cases hg : channel.Tag = "gcp" <;> simp [classify, tierView, hg]

theorem classify_IsAvailable (channel : Channel) :
    (classify channel).IsAvailable = decide (channel.Status = "1") := by
  by_cases hg : channel.Tag = "gcp" <;> by_cases hs : channel.Status = "1" <;>
    simp [classify, tierView, statusView, hg, hs]

theorem classify_MinutePercentage (channel : Channel) :
    (classify channel).MinutePercentage =
      percentage channel.CountMinuteUsage (classify channel).MinuteLimit := rfl

theorem classify_DayPercentage (channel : Channel) :
    (classify channel).DayPercentage =
      percentage channel.CountDayUsage (classify channel).DayLimit := rfl

/-- C4: a channel whose `Tag` is exactly "gcp" is classified with `MinuteLimit = 20`,
`DayLimit = 100` and `IsPaid = true`; a channel with any other `Tag` is classified with
`MinuteLimit = 5`, `DayLimit = 25` and `IsPaid = false`. -/
theorem C4_tier_determinism (channel : Channel) :
    (channel.Tag = "gcp" →
      (classify channel).MinuteLimit = 20 ∧ (classify channel).DayLimit = 100 ∧
        (classify channel).IsPaid = true) ∧
    (channel.Tag ≠ "gcp" →
      (classify channel).MinuteLimit = 5 ∧ (classify channel).DayLimit = 25 ∧
        (classify channel).IsPaid = false) := by
  rw [classify_MinuteLimit, classify_DayLimit, classify_IsPaid]
  constructor
  · intro hg
    simp [hg]
  · intro hg
    simp [hg]

/-- C4 at concrete inputs: the tags "gcp", "" and "GCP". -/
theorem C4_tier_determinism_witness :
    ((classify ⟨7, "1", 3, 4, "gcp"⟩).MinuteLimit = 20 ∧
      (classify ⟨7, "1", 3, 4, "gcp"⟩).DayLimit = 100 ∧
      (classify ⟨7, "1", 3, 4, "gcp"⟩).IsPaid = true) ∧
    ((classify ⟨8, "1", 3, 4, ""⟩).MinuteLimit = 5 ∧
      (classify ⟨8, "1", 3, 4, ""⟩).DayLimit = 25 ∧
      (classify ⟨8, "1", 3, 4, ""⟩).IsPaid = false) ∧
    ((classify ⟨9, "1", 3, 4, "GCP"⟩).MinuteLimit = 5 ∧
      (classify ⟨9, "1", 3, 4, "GCP"⟩).DayLimit = 25 ∧
      (classify ⟨9, "1", 3, 4, "GCP"⟩).IsPaid = false) :=
  ⟨(C4_tier_determinism ⟨7, "1", 3, 4, "gcp"⟩).1 (by decide),
   (C4_tier_determinism ⟨8, "1", 3, 4, ""⟩).2 (by decide),
   (C4_tier_determinism ⟨9, "1", 3, 4, "GCP"⟩).2 (by decide)⟩

/-- C5: the classified view has `IsAvailable = true` if and only if the channel's `Status` is
exactly "1"; the strings "0", "2", "99" and "" all yield `IsAvailable = false`. -/
theorem C5_status_determinism :
    (∀ channel : Channel, (classify channel).IsAvailable = true ↔ channel.Status = "1") ∧
    (∀ (id mu du : Int) (tag : String),
      (classify ⟨id, "0", mu, du, tag⟩).IsAvailable = false ∧
      (classify ⟨id, "2", mu, du, tag⟩).IsAvailable = false ∧
      (classify ⟨id, "99", mu, du, tag⟩).IsAvailable = false ∧
      (classify ⟨id, "", mu, du, tag⟩).IsAvailable = false) := by
  constructor
  · intro channel
    rw [classify_IsAvailable]
    simp
  · intro id mu du tag
    simp [classify_IsAvailable]

/-! ## Percentage claims -/

theorem cap_eq_min (p : ℚ) : (if p > 100 then 100 else p) = min 100 p := by
  by_cases h : p > 100
  · rw [if_pos h, min_eq_left (le_of_lt h)]
  · rw [if_neg h, min_eq_right (not_lt.mp h)]

theorem percentage_of_pos (usage limit : Int) (hl : 0 < limit) :
    percentage usage limit = min 100 (ratioTimes100 usage limit) := by
  unfold percentage
  rw [if_pos hl]
  simp only []
  rw [cap_eq_min]

theorem percentage_of_nonpos (usage limit : Int) (hl : limit ≤ 0) :
    percentage usage limit = 0 := by
  unfold percentage
  rw [if_neg (not_lt.mpr hl)]

theorem percentage_le (usage limit : Int) : percentage usage limit ≤ 100 := by
  by_cases hl : 0 < limit
  · rw [percentage_of_pos usage limit hl]
    exact min_le_left _ _
  · rw [percentage_of_nonpos usage limit (not_lt.mp hl)]
    norm_num

theorem percentage_nonneg (usage limit : Int) (hu : 0 ≤ usage) :
    0 ≤ percentage usage limit := by
  by_cases hl : 0 < limit
  · rw [percentage_of_pos usage limit hl]
    exact le_min (by norm_num) ((ratioTimes100_nonneg_iff usage limit hl).mpr hu)
  · rw [percentage_of_nonpos usage limit (not_lt.mp hl)]

/-- C6: for every usage at least 0 and every limit above 0 the computed percentage lies
between 0 and 100; hence for every channel with non-negative usage counts both percentages of
its view lie between 0 and 100. -/
theorem C6_clamping :
    (∀ usage limit : Int, 0 ≤ usage → 0 < limit →
      0 ≤ percentage usage limit ∧ percentage usage limit ≤ 100) ∧
    (∀ channel : Channel, 0 ≤ channel.CountMinuteUsage → 0 ≤ channel.CountDayUsage →
      (0 ≤ (classify channel).MinutePercentage ∧ (classify channel).MinutePercentage ≤ 100) ∧
      (0 ≤ (classify channel).DayPercentage ∧ (classify channel).DayPercentage ≤ 100)) := by
  constructor
  · intro usage limit hu _
    exact ⟨percentage_nonneg usage limit hu, percentage_le usage limit⟩
  · intro channel hm hd
    rw [classify_MinutePercentage, classify_DayPercentage]
    exact ⟨⟨percentage_nonneg _ _ hm, percentage_le _ _⟩,
      ⟨percentage_nonneg _ _ hd, percentage_le _ _⟩⟩

/-- C6 at concrete inputs: usage 7 against limit 5, and a normal channel with usages 7, 3. -/
theorem C6_clamping_witness :
    ((0 : Int) ≤ 7 ∧ (0 : Int) < 5 ∧
      0 ≤ percentage 7 5 ∧ percentage 7 5 ≤ 100) ∧
    ((0 ≤ (classify ⟨1, "1", 7, 3, ""⟩).MinutePercentage ∧
        (classify ⟨1, "1", 7, 3, ""⟩).MinutePercentage ≤ 100) ∧
      (0 ≤ (classify ⟨1, "1", 7, 3, ""⟩).DayPercentage ∧
        (classify ⟨1, "1", 7, 3, ""⟩).DayPercentage ≤ 100)) :=
  ⟨⟨by decide, by decide, C6_clamping.1 7 5 (by decide) (by decide)⟩,
   C6_clamping.2 ⟨1, "1", 7, 3, ""⟩ (by decide) (by decide)⟩


/-! ## The summary of a pass, field by field -/

/-- The minute usage total of a pass is the sum of the usages after wrap-around. -/
theorem pass_TotalMinuteUsage (rows : List Channel) :
    (pass rows).Summary.TotalMinuteUsage =
      wrapInt (rows.map (fun c => c.CountMinuteUsage)).sum := by
  have h1 := rowLoop_TotalMinuteUsage LoopState.init rows
  have h2 := rowLoop_TotalMinuteUsage_range LoopState.init rows (by decide)
  rw [h2] at h1
  simpa [pass, finalize_TotalMinuteUsage, LoopState.init, SummaryData.zero] using h1

/-- The day usage total of a pass is the sum of the usages after wrap-around. -/
theorem pass_TotalDayUsage (rows : List Channel) :
    (pass rows).Summary.TotalDayUsage =
      wrapInt (rows.map (fun c => c.CountDayUsage)).sum := by
  have h1 := rowLoop_TotalDayUsage LoopState.init rows
  have h2 := rowLoop_TotalDayUsage_range LoopState.init rows (by decide)
  rw [h2] at h1
  simpa [pass, finalize_TotalDayUsage, LoopState.init, SummaryData.zero] using h1

theorem pass_TotalMinuteLimit (rows : List Channel) :
    (pass rows).Summary.TotalMinuteLimit =
      (rows.map (fun c => (classify c).MinuteLimit)).sum := by
  simp [pass, finalize_TotalMinuteLimit, rowLoop_TotalMinuteLimit, LoopState.init,
    SummaryData.zero]

theorem pass_TotalDayLimit (rows : List Channel) :
    (pass rows).Summary.TotalDayLimit = (rows.map (fun c => (classify c).DayLimit)).sum := by
  simp [pass, finalize_TotalDayLimit, rowLoop_TotalDayLimit, LoopState.init,
    SummaryData.zero]

theorem pass_TotalNormalChannels (rows : List Channel) :
    (pass rows).Summary.TotalNormalChannels =
      ((rows.countP (fun c => decide (c.Tag ≠ "gcp")) : ℕ) : Int) := by
  simp [pass, finalize_TotalNormalChannels, rowLoop_TotalNormalChannels, LoopState.init,
    SummaryData.zero]

theorem availableNormal_eq (rows : List Channel) :
    availableNormal rows =
      ((rows.countP (fun c => decide (c.Tag ≠ "gcp" ∧ c.Status = "1")) : ℕ) : Int) := by
  simp [availableNormal, rowLoop_availableNormalChannels, LoopState.init]

theorem pass_DisabledNormalChannels (rows : List Channel) :
    (pass rows).Summary.DisabledNormalChannels =
      (pass rows).Summary.TotalNormalChannels - availableNormal rows := by
  simp [pass, finalize_TotalNormalChannels, finalize_DisabledNormalChannels, availableNormal]

theorem rowLoop_MinutePercentage (st : LoopState) (rows : List Channel) :
    (rowLoop st rows).summary.MinutePercentage = st.summary.MinutePercentage := by
  induction rows generalizing st with
  | nil => rfl
  | cons c rows ih =>
    rw [rowLoop_cons, ih]
    by_cases hg : c.Tag = "gcp" <;> simp [rowBody, hg]

theorem rowLoop_DayPercentage (st : LoopState) (rows : List Channel) :
    (rowLoop st rows).summary.DayPercentage = st.summary.DayPercentage := by
  induction rows generalizing st with
  | nil => rfl
  | cons c rows ih =>
    rw [rowLoop_cons, ih]
    by_cases hg : c.Tag = "gcp" <;> simp [rowBody, hg]

theorem rowLoop_DisabledNormalPercentage (st : LoopState) (rows : List Channel) :
    (rowLoop st rows).summary.DisabledNormalPercentage =
      st.summary.DisabledNormalPercentage := by
  induction rows generalizing st with
  | nil => rfl
  | cons c rows ih =>
    rw [rowLoop_cons, ih]
    by_cases hg : c.Tag = "gcp" <;> simp [rowBody, hg]

/-- The summary minute percentage is the guarded, capped percentage of the two totals. -/
theorem pass_MinutePercentage (rows : List Channel) :
    (pass rows).Summary.MinutePercentage =
      percentage (pass rows).Summary.TotalMinuteUsage (pass rows).Summary.TotalMinuteLimit := by
  simp only [pass, finalize_TotalMinuteUsage, finalize_TotalMinuteLimit,
    finalize_MinutePercentage, percentage]
  split_ifs with h1 h2
  · rfl
  · rfl
  · rw [rowLoop_MinutePercentage]
    rfl

/-- The summary day percentage is the guarded, capped percentage of the two totals. -/
theorem pass_DayPercentage (rows : List Channel) :
    (pass rows).Summary.DayPercentage =
      percentage (pass rows).Summary.TotalDayUsage (pass rows).Summary.TotalDayLimit := by
  simp only [pass, finalize_TotalDayUsage, finalize_TotalDayLimit,
    finalize_DayPercentage, percentage]
  split_ifs with h1 h2
  · rfl
  · rfl
  · rw [rowLoop_DayPercentage]
    rfl

theorem pass_DisabledNormalPercentage (rows : List Channel) :
    (pass rows).Summary.DisabledNormalPercentage =
      if (pass rows).Summary.TotalNormalChannels > 0 then
        ratioTimes100 (pass rows).Summary.DisabledNormalChannels
          (pass rows).Summary.TotalNormalChannels
      else 0 := by
  simp only [pass, finalize_TotalNormalChannels, finalize_DisabledNormalChannels,
    finalize_DisabledNormalPercentage]
  split_ifs with h1
  · rfl
  · rw [rowLoop_DisabledNormalPercentage]
    rfl

theorem sum_MinuteLimit_ge (rows : List Channel) :
    5 * (rows.length : Int) ≤ (rows.map (fun c => (classify c).MinuteLimit)).sum := by
  induction rows with
  | nil => simp
  | cons c rows ih =>
    have hc : (5 : Int) ≤ (classify c).MinuteLimit := by
      rw [classify_MinuteLimit]; split_ifs <;> norm_num
    simp only [List.map_cons, List.sum_cons, List.length_cons]
    push_cast
    linarith

theorem sum_DayLimit_ge (rows : List Channel) :
    25 * (rows.length : Int) ≤ (rows.map (fun c => (classify c).DayLimit)).sum := by
  induction rows with
  | nil => simp
  | cons c rows ih =>
    have hc : (25 : Int) ≤ (classify c).DayLimit := by
      rw [classify_DayLimit]; split_ifs <;> norm_num
    simp only [List.map_cons, List.sum_cons, List.length_cons]
    push_cast
    linarith

theorem length_pos_of_ne_nil (rows : List Channel) (h : rows ≠ []) :
    (1 : Int) ≤ (rows.length : Int) := by
  have := List.length_pos.mpr h
  omega

/-! ## The capped percentage against the exact ratio -/

/-- The capped percentage differs from the exact capped ratio by at most 100 * 2^-50. -/
theorem percentage_close (usage limit : Int) (hu : 0 ≤ usage) (hl : 0 < limit) :
    |percentage usage limit - min 100 (100 * (usage : ℚ) / (limit : ℚ))| ≤ 100 / 2 ^ 50 := by
  have hc := ratioTimes100_close usage limit hu hl
  obtain ⟨h1, h2⟩ := abs_le.mp hc
  rw [percentage_of_pos usage limit hl, abs_le]
  rcases le_total (ratioTimes100 usage limit) 100 with hp | hp <;>
    rcases le_total (100 * (usage : ℚ) / (limit : ℚ)) 100 with ht | ht
  · rw [min_eq_right hp, min_eq_right ht]
    constructor <;> linarith
  · rw [min_eq_right hp, min_eq_left ht]
    constructor <;> linarith
  · rw [min_eq_left hp, min_eq_right ht]
    constructor <;> linarith
  · rw [min_eq_left hp, min_eq_left ht]
    constructor <;> norm_num

theorem f64_20_8 : f64 (104 / 5) = 5854679515581645 / 281474976710656 := by
  rw [f64_eq _ 4 5854679515581645 (by norm_num) (by norm_num)
    (by rw [abs_lt]; constructor <;> norm_num)]
  norm_num

theorem sum_usage_nonneg (rows : List Channel) (u : Channel → Int)
    (h : ∀ c ∈ rows, 0 ≤ u c) : 0 ≤ (rows.map u).sum := by
  apply List.sum_nonneg
  intro x hx
  obtain ⟨c, hc, rfl⟩ := List.mem_map.mp hx
  exact h c hc

theorem pass_DayPercentage_sevenPool :
    (pass sevenPool).Summary.DayPercentage = 7881299347898369 / 281474976710656 := by
  have hne : ¬ ("" : String) = "gcp" := by decide
  have h : (pass sevenPool).Summary.DayPercentage = percentage 7 25 := by
    rw [pass_DayPercentage, pass_TotalDayUsage, pass_TotalDayLimit]
    simp [sevenPool, classify_DayLimit, hne, wrapInt]
  rw [h, percentage_of_pos 7 25 (by norm_num), ratioTimes100_7_25]
  norm_num

theorem pass_TotalDayUsage_overflowPool : (pass overflowPool).Summary.TotalDayUsage = -2 := by
  rw [pass_TotalDayUsage]
  decide

theorem pass_DayPercentage_overflowPool : (pass overflowPool).Summary.DayPercentage = -4 := by
  have hne : ¬ ("" : String) = "gcp" := by decide
  have h : (pass overflowPool).Summary.DayPercentage = percentage (-2) 50 := by
    rw [pass_DayPercentage, pass_TotalDayUsage_overflowPool, pass_TotalDayLimit]
    simp [overflowPool, classify_DayLimit, hne]
  rw [h, percentage_of_pos (-2) 50 (by norm_num), ratioTimes100_neg2_50]
  norm_num

theorem pass_DayPercentage_skewedPool :
    (pass skewedPool).Summary.DayPercentage = 5854679515581645 / 281474976710656 := by
  have hne : ¬ ("" : String) = "gcp" := by decide
  have h : (pass skewedPool).Summary.DayPercentage = percentage 26 125 := by
    rw [pass_DayPercentage, pass_TotalDayUsage, pass_TotalDayLimit]
    simp [skewedPool, classify_DayLimit, hne, wrapInt]
  rw [h, percentage_of_pos 26 125 (by norm_num), ratioTimes100_26_125]
  norm_num

theorem skewedPool_view_percentages :
    (skewedPool.map classify).map (fun v => v.DayPercentage) = [4, 25] := by
  have hne : ¬ ("" : String) = "gcp" := by decide
  have h1 : percentage 1 25 = 4 := by
    rw [percentage_of_pos 1 25 (by norm_num), ratioTimes100_1_25]; norm_num
  have h2 : percentage 25 100 = 25 := by
    rw [percentage_of_pos 25 100 (by norm_num), ratioTimes100_25_100]; norm_num
  simp [skewedPool, classify_DayPercentage, classify_DayLimit, hne, h1, h2]

/-! ## Aggregation claims -/

/-- C7 (as amended): the summary percentages are computed from the pool totals, not as the
mean of the per-channel percentages. For every list of channels with non-negative usages and
at least one record whose usage sums stay below 2^63 (no wrap-around of the totals),
`Summary.MinutePercentage` is the float64 value of (sum of `CountMinuteUsage`) / (sum of
`MinuteLimit`) * 100 capped at 100, which lies within 100 * 2^-50 of
`min(100, 100 * sum usage / sum limit)`, and likewise `Summary.DayPercentage`. On a normal
channel with day usage 1 and a paid channel with day usage 25 the summary day percentage is
the float64 nearest to 100 * 26 / 125 = 20.8, whereas the mean of the two views' day
percentages (4 and 25) is 14.5. -/
theorem C7_summary_ratio_of_sums :
    (∀ rows : List Channel, rows ≠ [] →
      (∀ c ∈ rows, 0 ≤ c.CountMinuteUsage ∧ 0 ≤ c.CountDayUsage) →
      (rows.map (fun c => c.CountMinuteUsage)).sum < 2 ^ 63 →
      (rows.map (fun c => c.CountDayUsage)).sum < 2 ^ 63 →
      ((pass rows).Summary.MinutePercentage =
          min 100 (ratioTimes100 (rows.map (fun c => c.CountMinuteUsage)).sum
            (rows.map (fun c => (classify c).MinuteLimit)).sum) ∧
        |(pass rows).Summary.MinutePercentage -
            min 100 (100 * (((rows.map (fun c => c.CountMinuteUsage)).sum : Int) : ℚ) /
              (((rows.map (fun c => (classify c).MinuteLimit)).sum : Int) : ℚ))| ≤
          100 / 2 ^ 50) ∧
      ((pass rows).Summary.DayPercentage =
          min 100 (ratioTimes100 (rows.map (fun c => c.CountDayUsage)).sum
            (rows.map (fun c => (classify c).DayLimit)).sum) ∧
        |(pass rows).Summary.DayPercentage -
            min 100 (100 * (((rows.map (fun c => c.CountDayUsage)).sum : Int) : ℚ) /
              (((rows.map (fun c => (classify c).DayLimit)).sum : Int) : ℚ))| ≤
          100 / 2 ^ 50)) ∧
    ((pass skewedPool).Summary.DayPercentage = f64 (104 / 5) ∧
      (pass skewedPool).Summary.DayPercentage = 5854679515581645 / 281474976710656 ∧
      ((skewedPool.map classify).map (fun v => v.DayPercentage)) = [4, 25] ∧
      ((skewedPool.map classify).map (fun v => v.DayPercentage)).sum / 2 = 29 / 2) := by
  constructor
  · intro rows hne hu hm63 hd63
    have hlen := length_pos_of_ne_nil rows hne
    have hm := sum_MinuteLimit_ge rows
    have hd := sum_DayLimit_ge rows
    have hm0 := sum_usage_nonneg rows (fun c => c.CountMinuteUsage) (fun c hc => (hu c hc).1)
    have hd0 := sum_usage_nonneg rows (fun c => c.CountDayUsage) (fun c hc => (hu c hc).2)
    have hwm : wrapInt (rows.map (fun c => c.CountMinuteUsage)).sum =
        (rows.map (fun c => c.CountMinuteUsage)).sum :=
      wrapInt_of_range _ (by linarith) (by norm_num at hm63; exact hm63)
    have hwd : wrapInt (rows.map (fun c => c.CountDayUsage)).sum =
        (rows.map (fun c => c.CountDayUsage)).sum :=
      wrapInt_of_range _ (by linarith) (by norm_num at hd63; exact hd63)
    rw [pass_MinutePercentage, pass_DayPercentage, pass_TotalMinuteUsage, pass_TotalDayUsage,
      pass_TotalMinuteLimit, pass_TotalDayLimit, hwm, hwd]
    exact ⟨⟨percentage_of_pos _ _ (by linarith), percentage_close _ _ hm0 (by linarith)⟩,
      ⟨percentage_of_pos _ _ (by linarith), percentage_close _ _ hd0 (by linarith)⟩⟩
  · refine ⟨?_, pass_DayPercentage_skewedPool, skewedPool_view_percentages, ?_⟩
    · rw [pass_DayPercentage_skewedPool, f64_20_8]
    · rw [skewedPool_view_percentages]
      norm_num

/-- C7 at a concrete input: the pool of a normal and a paid channel. -/
theorem C7_summary_ratio_of_sums_witness :
    skewedPool ≠ [] ∧
    (∀ c ∈ skewedPool, 0 ≤ c.CountMinuteUsage ∧ 0 ≤ c.CountDayUsage) ∧
    (skewedPool.map (fun c => c.CountMinuteUsage)).sum < 2 ^ 63 ∧
    (skewedPool.map (fun c => c.CountDayUsage)).sum < 2 ^ 63 ∧
    (pass skewedPool).Summary.DayPercentage =
      min 100 (ratioTimes100 (skewedPool.map (fun c => c.CountDayUsage)).sum
        (skewedPool.map (fun c => (classify c).DayLimit)).sum) ∧
    |(pass skewedPool).Summary.DayPercentage -
        min 100 (100 * (((skewedPool.map (fun c => c.CountDayUsage)).sum : Int) : ℚ) /
          (((skewedPool.map (fun c => (classify c).DayLimit)).sum : Int) : ℚ))| ≤
      100 / 2 ^ 50 :=
  ⟨by decide, by decide, by decide, by decide,
    (C7_summary_ratio_of_sums.1 skewedPool (by decide) (by decide) (by decide)
      (by decide)).2⟩

/-- C7 (as stated) fails. On a single normal channel with day usage 7 the summary day
percentage is 7881299347898369 / 2^48 (28.000000000000004), not min(100, 100 * 7 / 25) = 28;
on two normal channels with day usage 2^63 - 1 the day total wraps to -2 and the summary day
percentage is -4, not 100. -/
theorem C7_counterexample :
    (sevenPool ≠ [] ∧
      (∀ c ∈ sevenPool, 0 ≤ c.CountMinuteUsage ∧ 0 ≤ c.CountDayUsage) ∧
      (pass sevenPool).Summary.DayPercentage = 7881299347898369 / 281474976710656 ∧
      ¬ ((pass sevenPool).Summary.DayPercentage =
        min 100 (100 * (((sevenPool.map (fun c => c.CountDayUsage)).sum : Int) : ℚ) /
          (((sevenPool.map (fun c => (classify c).DayLimit)).sum : Int) : ℚ)))) ∧
    (overflowPool ≠ [] ∧
      (∀ c ∈ overflowPool, 0 ≤ c.CountMinuteUsage ∧ 0 ≤ c.CountDayUsage) ∧
      (pass overflowPool).Summary.DayPercentage = -4 ∧
      ¬ ((pass overflowPool).Summary.DayPercentage =
        min 100 (100 * (((overflowPool.map (fun c => c.CountDayUsage)).sum : Int) : ℚ) /
          (((overflowPool.map (fun c => (classify c).DayLimit)).sum : Int) : ℚ)))) := by
  have hne : ¬ ("" : String) = "gcp" := by decide
  refine ⟨⟨by decide, by decide, pass_DayPercentage_sevenPool, ?_⟩,
    ⟨by decide, by decide, pass_DayPercentage_overflowPool, ?_⟩⟩
  · rw [pass_DayPercentage_sevenPool]
    norm_num [sevenPool, classify_DayLimit, hne]
  · rw [pass_DayPercentage_overflowPool]
    norm_num [overflowPool, classify_DayLimit, hne]

theorem classify_CountMinuteUsage (channel : Channel) :
    (classify channel).CountMinuteUsage = channel.CountMinuteUsage := by
  by_cases hg : channel.Tag = "gcp" <;> by_cases hs : channel.Status = "1" <;>
    simp [classify, tierView, statusView, hg, hs]

theorem classify_CountDayUsage (channel : Channel) :
    (classify channel).CountDayUsage = channel.CountDayUsage := by
  by_cases hg : channel.Tag = "gcp" <;> by_cases hs : channel.Status = "1" <;>
    simp [classify, tierView, statusView, hg, hs]

/-- The views handed to the template are a reordering of the classified records. -/
theorem pass_Channels_perm (rows : List Channel) :
    (pass rows).Channels.Perm (rows.map classify) := by
  have h : (pass rows).Channels = rank (rows.map classify) := by
    simp [pass, rowLoop_channelViews, LoopState.init]
  rw [h]
  exact rank_perm _

/-- C8 (as amended): the summary totals are sums over all records, paid and normal alike.
`TotalMinuteLimit` and `TotalDayLimit` are the sums of the limits of the views.
`TotalMinuteUsage` and `TotalDayUsage` are the sums of the records' usage counts in 64-bit
wrapping arithmetic (the sum reduced modulo 2^64 into the range from -2^63 to 2^63 - 1); they
are the plain sums, over the records and over the views handed to the template alike,
whenever these sums lie in that range. -/
theorem C8_summary_totals (rows : List Channel) :
    ((pass rows).Summary.TotalMinuteUsage =
        wrapInt (rows.map (fun c => c.CountMinuteUsage)).sum ∧
      (pass rows).Summary.TotalDayUsage = wrapInt (rows.map (fun c => c.CountDayUsage)).sum ∧
      (pass rows).Summary.TotalMinuteLimit =
        ((rows.map classify).map (fun v => v.MinuteLimit)).sum ∧
      (pass rows).Summary.TotalDayLimit =
        ((rows.map classify).map (fun v => v.DayLimit)).sum) ∧
    (-2 ^ 63 ≤ (rows.map (fun c => c.CountMinuteUsage)).sum →
      (rows.map (fun c => c.CountMinuteUsage)).sum < 2 ^ 63 →
      (pass rows).Summary.TotalMinuteUsage = (rows.map (fun c => c.CountMinuteUsage)).sum ∧
      (pass rows).Summary.TotalMinuteUsage =
        ((pass rows).Channels.map (fun v => v.CountMinuteUsage)).sum) ∧
    (-2 ^ 63 ≤ (rows.map (fun c => c.CountDayUsage)).sum →
      (rows.map (fun c => c.CountDayUsage)).sum < 2 ^ 63 →
      (pass rows).Summary.TotalDayUsage = (rows.map (fun c => c.CountDayUsage)).sum ∧
      (pass rows).Summary.TotalDayUsage =
        ((pass rows).Channels.map (fun v => v.CountDayUsage)).sum) ∧
    ((pass rows).Summary.TotalMinuteLimit =
        ((pass rows).Channels.map (fun v => v.MinuteLimit)).sum ∧
      (pass rows).Summary.TotalDayLimit =
        ((pass rows).Channels.map (fun v => v.DayLimit)).sum) := by
  have hp := pass_Channels_perm rows
  rw [((hp.map (fun v => v.CountMinuteUsage)).sum_eq),
    ((hp.map (fun v => v.CountDayUsage)).sum_eq),
    ((hp.map (fun v => v.MinuteLimit)).sum_eq),
    ((hp.map (fun v => v.DayLimit)).sum_eq)]
  rw [pass_TotalMinuteUsage, pass_TotalDayUsage, pass_TotalMinuteLimit, pass_TotalDayLimit]
  simp only [List.map_map, Function.comp_def, classify_CountMinuteUsage,
    classify_CountDayUsage, and_self, true_and]
  refine ⟨fun h1 h2 => ?_, fun h1 h2 => ?_, trivial⟩
  · exact wrapInt_of_range _ (by norm_num at h1; exact h1) (by norm_num at h2; exact h2)
  · exact wrapInt_of_range _ (by norm_num at h1; exact h1) (by norm_num at h2; exact h2)

/-- C8 at a concrete input: the pool of a normal and a paid channel, day usages 1 and 25. -/
theorem C8_summary_totals_witness :
    (-2 ^ 63 ≤ (skewedPool.map (fun c => c.CountDayUsage)).sum ∧
      (skewedPool.map (fun c => c.CountDayUsage)).sum < 2 ^ 63) ∧
    (pass skewedPool).Summary.TotalDayUsage = (skewedPool.map (fun c => c.CountDayUsage)).sum :=
  ⟨⟨by decide, by decide⟩,
    ((C8_summary_totals skewedPool).2.2.1 (by decide) (by decide)).1⟩

/-- C8 (as stated) fails: on two normal channels with day usage 2^63 - 1 the code's
`TotalDayUsage` is -2, while the sum of `CountDayUsage` is 2^64 - 2. -/
theorem C8_counterexample :
    (pass overflowPool).Summary.TotalDayUsage = -2 ∧
    (overflowPool.map (fun c => c.CountDayUsage)).sum = 18446744073709551614 ∧
    ¬ ((pass overflowPool).Summary.TotalDayUsage =
      (overflowPool.map (fun c => c.CountDayUsage)).sum) := by
  refine ⟨pass_TotalDayUsage_overflowPool, by decide, ?_⟩
  rw [pass_TotalDayUsage_overflowPool]
  decide

theorem countP_normal_split (rows : List Channel) :
    rows.countP (fun c => decide (c.Tag ≠ "gcp")) =
      rows.countP (fun c => decide (c.Tag ≠ "gcp" ∧ c.Status = "1")) +
        rows.countP (fun c => decide (c.Tag ≠ "gcp" ∧ c.Status ≠ "1")) := by
  induction rows with
  | nil => rfl
  | cons c rows ih =>
    simp only [List.countP_cons, ih]
    by_cases hg : c.Tag = "gcp" <;> by_cases hs : c.Status = "1" <;>
      simp [hg, hs] <;> omega

/-- C9: `TotalNormalChannels` is the number of records whose `Tag` is not "gcp", the
available-normal count is the number of those whose `Status` is "1", and
`DisabledNormalChannels` is the number of records whose `Tag` is not "gcp" and whose `Status`
is not "1"; so `DisabledNormalChannels + availableNormal = TotalNormalChannels` and
`0 ≤ DisabledNormalChannels ≤ TotalNormalChannels`. -/
theorem C9_aggregation_consistency (rows : List Channel) :
    (pass rows).Summary.TotalNormalChannels =
      ((rows.countP (fun c => decide (c.Tag ≠ "gcp")) : ℕ) : Int) ∧
    availableNormal rows =
      ((rows.countP (fun c => decide (c.Tag ≠ "gcp" ∧ c.Status = "1")) : ℕ) : Int) ∧
    (pass rows).Summary.DisabledNormalChannels =
      ((rows.countP (fun c => decide (c.Tag ≠ "gcp" ∧ c.Status ≠ "1")) : ℕ) : Int) ∧
    (pass rows).Summary.DisabledNormalChannels + availableNormal rows =
      (pass rows).Summary.TotalNormalChannels ∧
    0 ≤ (pass rows).Summary.DisabledNormalChannels ∧
    (pass rows).Summary.DisabledNormalChannels ≤ (pass rows).Summary.TotalNormalChannels := by
  have hsplit := countP_normal_split rows
  rw [pass_DisabledNormalChannels, pass_TotalNormalChannels, availableNormal_eq]
  refine ⟨rfl, rfl, ?_, ?_, ?_, ?_⟩ <;> omega

theorem pass_DisabledNormalChannels_bounds (rows : List Channel) :
    0 ≤ (pass rows).Summary.DisabledNormalChannels ∧
    (pass rows).Summary.DisabledNormalChannels ≤ (pass rows).Summary.TotalNormalChannels := by
  have hsplit := countP_normal_split rows
  rw [pass_DisabledNormalChannels, pass_TotalNormalChannels, availableNormal_eq]
  constructor <;> omega

/-- C10 (as amended): `DisabledNormalPercentage` is 0 when `TotalNormalChannels = 0`, and
otherwise it is the float64 value of `DisabledNormalChannels / TotalNormalChannels * 100`,
which lies within 100 * 2^-50 of `min(100, 100 * DisabledNormalChannels /
TotalNormalChannels)`; although the code applies no cap at 100 here, the value it computes
coincides with the capped percentage of `DisabledNormalChannels` against
`TotalNormalChannels` and lies between 0 and 100. -/
theorem C10_disabled_percentage (rows : List Channel) :
    ((pass rows).Summary.TotalNormalChannels = 0 →
      (pass rows).Summary.DisabledNormalPercentage = 0) ∧
    ((pass rows).Summary.TotalNormalChannels ≠ 0 →
      (pass rows).Summary.DisabledNormalPercentage =
          ratioTimes100 (pass rows).Summary.DisabledNormalChannels
            (pass rows).Summary.TotalNormalChannels ∧
        |(pass rows).Summary.DisabledNormalPercentage -
            min 100 (100 * ((pass rows).Summary.DisabledNormalChannels : ℚ) /
              ((pass rows).Summary.TotalNormalChannels : ℚ))| ≤ 100 / 2 ^ 50) ∧
    (pass rows).Summary.DisabledNormalPercentage =
      percentage (pass rows).Summary.DisabledNormalChannels
        (pass rows).Summary.TotalNormalChannels ∧
    0 ≤ (pass rows).Summary.DisabledNormalPercentage ∧
    (pass rows).Summary.DisabledNormalPercentage ≤ 100 := by
  obtain ⟨hD0, hDT⟩ := pass_DisabledNormalChannels_bounds rows
  rw [pass_DisabledNormalPercentage]
  by_cases hT : (pass rows).Summary.TotalNormalChannels > 0
  · have hle := ratioTimes100_le_hundred _ _ hT hDT
    have h0 := (ratioTimes100_nonneg_iff _ _ hT).mpr hD0
    have hpc : percentage (pass rows).Summary.DisabledNormalChannels
        (pass rows).Summary.TotalNormalChannels =
        ratioTimes100 (pass rows).Summary.DisabledNormalChannels
          (pass rows).Summary.TotalNormalChannels := by
      rw [percentage_of_pos _ _ hT, min_eq_right hle]
    have hcl := percentage_close _ _ hD0 hT
    rw [hpc] at hcl
    rw [if_pos hT, hpc]
    exact ⟨fun h0' => absurd hT (by rw [h0']; decide), fun _ => ⟨rfl, hcl⟩, rfl, h0, hle⟩
  · have hT0 : (pass rows).Summary.TotalNormalChannels = 0 := by omega
    rw [if_neg hT, percentage_of_nonpos _ _ (by omega)]
    exact ⟨fun _ => rfl, fun hne => absurd hT0 hne, rfl, le_refl _, by norm_num⟩

/-- C10 at concrete inputs: no normal channel at all, and three normal channels of which one
is disabled. -/
theorem C10_disabled_percentage_witness :
    ((pass [⟨1, "1", 0, 0, "gcp"⟩]).Summary.TotalNormalChannels = 0 ∧
      (pass [⟨1, "1", 0, 0, "gcp"⟩]).Summary.DisabledNormalPercentage = 0) ∧
    ((pass thirdPool).Summary.TotalNormalChannels ≠ 0 ∧
      (pass thirdPool).Summary.DisabledNormalPercentage =
        ratioTimes100 (pass thirdPool).Summary.DisabledNormalChannels
          (pass thirdPool).Summary.TotalNormalChannels) :=
  ⟨⟨by decide, (C10_disabled_percentage [⟨1, "1", 0, 0, "gcp"⟩]).1 (by decide)⟩,
   ⟨by decide, ((C10_disabled_percentage thirdPool).2.1 (by decide)).1⟩⟩

/-- C10 (as stated) fails: with one of three normal channels disabled the code's
`DisabledNormalPercentage` is 2345624805922133 / 2^46 (33.33333333333333), not
min(100, 100 * 1 / 3) = 100 / 3. -/
theorem C10_counterexample :
    (pass thirdPool).Summary.TotalNormalChannels = 3 ∧
    (pass thirdPool).Summary.DisabledNormalChannels = 1 ∧
    (pass thirdPool).Summary.DisabledNormalPercentage = 2345624805922133 / 70368744177664 ∧
    ¬ ((pass thirdPool).Summary.DisabledNormalPercentage =
      min 100 (100 * ((pass thirdPool).Summary.DisabledNormalChannels : ℚ) /
        ((pass thirdPool).Summary.TotalNormalChannels : ℚ))) := by
  have hT : (pass thirdPool).Summary.TotalNormalChannels = 3 := by decide
  have hD : (pass thirdPool).Summary.DisabledNormalChannels = 1 := by decide
  have hP : (pass thirdPool).Summary.DisabledNormalPercentage =
      2345624805922133 / 70368744177664 := by
    rw [pass_DisabledNormalPercentage, hT, hD, if_pos (by decide), ratioTimes100_1_3]
  refine ⟨hT, hD, hP, ?_⟩
  rw [hP, hT, hD]
  norm_num

/-! ## Safety claims -/

/-- C11: a pass over zero records yields an empty view sequence and a summary in which every
total and every percentage is 0; no division by zero is executed on the way, the checked
percentage of the zero totals being `some 0`. -/
theorem C11_empty_input :
    (pass []).Channels = [] ∧
    (pass []).Summary.TotalMinuteUsage = 0 ∧
    (pass []).Summary.TotalDayUsage = 0 ∧
    (pass []).Summary.TotalMinuteLimit = 0 ∧
    (pass []).Summary.TotalDayLimit = 0 ∧
    (pass []).Summary.TotalNormalChannels = 0 ∧
    (pass []).Summary.DisabledNormalChannels = 0 ∧
    (pass []).Summary.MinutePercentage = 0 ∧
    (pass []).Summary.DayPercentage = 0 ∧
    (pass []).Summary.DisabledNormalPercentage = 0 ∧
    pass [] = { Channels := [], Summary := SummaryData.zero } ∧
    handler [] false = some { Channels := [], Summary := SummaryData.zero } ∧
    percentageChecked (pass []).Summary.TotalMinuteUsage (pass []).Summary.TotalMinuteLimit =
      some 0 ∧
    percentageChecked (pass []).Summary.TotalDayUsage (pass []).Summary.TotalDayLimit =
      some 0 := by
  have h : pass [] = { Channels := [], Summary := SummaryData.zero } := by
    simp [pass, rowLoop, LoopState.init, finalize, SummaryData.zero, rank, sliceStable,
      insertionLoop]
  have h2 : handler [] false = some { Channels := [], Summary := SummaryData.zero } := by
    simp [handler, scanLoop, LoopState.init, finalize, SummaryData.zero, rank, sliceStable,
      insertionLoop]
  rw [h]
  simp [h2, SummaryData.zero, percentageChecked]

theorem percentageChecked_eq (usage limit : Int) :
    percentageChecked usage limit = some (percentage usage limit) := by
  unfold percentageChecked percentage
  by_cases hl : limit > 0
  · have hne : ¬ f64 (limit : ℚ) = 0 := ne_of_gt (f64_intCast_pos limit hl)
    simp [hl, hne]
  · simp [hl]

theorem finalize_MinutePercentage_of_nonpos (st : LoopState)
    (h : st.summary.TotalMinuteLimit ≤ 0) :
    (finalize st).MinutePercentage = st.summary.MinutePercentage := by
  rw [finalize_MinutePercentage, if_neg (not_lt.mpr h)]

theorem finalize_DayPercentage_of_nonpos (st : LoopState)
    (h : st.summary.TotalDayLimit ≤ 0) :
    (finalize st).DayPercentage = st.summary.DayPercentage := by
  rw [finalize_DayPercentage, if_neg (not_lt.mpr h)]

/-- C12: for every usage, of any sign, the percentage computed with a limit at most 0 is 0,
and the computation executes no division by zero (the checked computation returns a value for
every input, through the branch without division when the limit is at most 0). The same holds
for the summary: when a total limit is at most 0 the finalisation leaves the summary
percentage at the 0 it starts from. -/
theorem C12_zero_limit_safety :
    (∀ usage limit : Int, limit ≤ 0 →
      percentage usage limit = 0 ∧ percentageChecked usage limit = some 0) ∧
    (∀ usage limit : Int, percentageChecked usage limit = some (percentage usage limit)) ∧
    (∀ channel : Channel,
      percentageChecked channel.CountMinuteUsage (classify channel).MinuteLimit =
        some (classify channel).MinutePercentage ∧
      percentageChecked channel.CountDayUsage (classify channel).DayLimit =
        some (classify channel).DayPercentage) ∧
    (∀ st : LoopState, st.summary.TotalMinuteLimit ≤ 0 →
      (finalize st).MinutePercentage = st.summary.MinutePercentage) ∧
    (∀ st : LoopState, st.summary.TotalDayLimit ≤ 0 →
      (finalize st).DayPercentage = st.summary.DayPercentage) ∧
    (∀ rows : List Channel, (pass rows).Summary.TotalMinuteLimit ≤ 0 →
      (pass rows).Summary.MinutePercentage = 0) ∧
    (∀ rows : List Channel, (pass rows).Summary.TotalDayLimit ≤ 0 →
      (pass rows).Summary.DayPercentage = 0) := by
  refine ⟨?_, percentageChecked_eq, ?_, finalize_MinutePercentage_of_nonpos,
    finalize_DayPercentage_of_nonpos, ?_, ?_⟩
  · intro usage limit hl
    have h0 := percentage_of_nonpos usage limit hl
    exact ⟨h0, by rw [percentageChecked_eq, h0]⟩
  · intro channel
    exact ⟨percentageChecked_eq _ _, percentageChecked_eq _ _⟩
  · intro rows h
    rw [pass_MinutePercentage, percentage_of_nonpos _ _ h]
  · intro rows h
    rw [pass_DayPercentage, percentage_of_nonpos _ _ h]

/-- C12 at concrete inputs: usage -3 against limit 0, and the summary of the empty pass. -/
theorem C12_zero_limit_safety_witness :
    ((0 : Int) ≤ 0 ∧ percentage (-3) 0 = 0 ∧ percentageChecked (-3) 0 = some 0) ∧
    ((pass []).Summary.TotalMinuteLimit ≤ 0 ∧ (pass []).Summary.MinutePercentage = 0) :=
  ⟨⟨by decide, C12_zero_limit_safety.1 (-3) 0 (by decide)⟩,
   ⟨by rw [pass_TotalMinuteLimit]; decide,
    C12_zero_limit_safety.2.2.2.2.2.1 [] (by rw [pass_TotalMinuteLimit]; decide)⟩⟩

/-! ## The percentage of a view against its usage -/

theorem classify_MinuteLimit_pos (channel : Channel) : 0 < (classify channel).MinuteLimit := by
  rw [classify_MinuteLimit]; split_ifs <;> norm_num

theorem classify_DayLimit_pos (channel : Channel) : 0 < (classify channel).DayLimit := by
  rw [classify_DayLimit]; split_ifs <;> norm_num

theorem percentage_eq_zero_iff (usage limit : Int) (hl : 0 < limit) :
    percentage usage limit = 0 ↔ usage = 0 := by
  rw [percentage_of_pos usage limit hl, ← ratioTimes100_eq_zero_iff usage limit hl]
  constructor
  · intro h
    rcases min_choice (100 : ℚ) (ratioTimes100 usage limit) with hc | hc
    · rw [hc] at h; norm_num at h
    · rw [hc] at h; exact h
  · intro h
    rw [h]
    norm_num

theorem percentage_nonneg_iff (usage limit : Int) (hl : 0 < limit) :
    0 ≤ percentage usage limit ↔ 0 ≤ usage := by
  rw [percentage_of_pos usage limit hl, ← ratioTimes100_nonneg_iff usage limit hl, le_min_iff]
  constructor
  · intro h
    exact h.2
  · intro h
    exact ⟨by norm_num, h⟩

theorem percentage_eq_hundred (usage limit : Int) (hl : 0 < limit) (h : limit ≤ usage) :
    percentage usage limit = 100 := by
  rw [percentage_of_pos usage limit hl]
  exact min_eq_left (ratioTimes100_ge_hundred usage limit hl h)

/-! ## View claims -/

/-- C13 (as amended): for every view produced by classifying a channel, `MinuteLimit` is never
0 and `MinutePercentage = 0` if and only if `CountMinuteUsage = 0`; likewise `DayLimit` is
never 0 and `DayPercentage = 0` if and only if `CountDayUsage = 0`. -/
theorem C13_percentage_zero_iff_usage_zero (channel : Channel) :
    ((classify channel).MinuteLimit ≠ 0 ∧
      ((classify channel).MinutePercentage = 0 ↔ channel.CountMinuteUsage = 0)) ∧
    ((classify channel).DayLimit ≠ 0 ∧
      ((classify channel).DayPercentage = 0 ↔ channel.CountDayUsage = 0)) := by
  have hm := classify_MinuteLimit_pos channel
  have hd := classify_DayLimit_pos channel
  rw [classify_MinutePercentage, classify_DayPercentage]
  exact ⟨⟨ne_of_gt hm, percentage_eq_zero_iff _ _ hm⟩,
    ⟨ne_of_gt hd, percentage_eq_zero_iff _ _ hd⟩⟩

/-- C13 (as stated) fails: the view of a normal channel with no usage has
`MinutePercentage = 0` and `MinuteLimit = 5`, and `DayPercentage = 0` and `DayLimit = 25`. -/
theorem C13_counterexample :
    ((classify ⟨1, "1", 0, 0, ""⟩).MinutePercentage = 0 ∧
      (classify ⟨1, "1", 0, 0, ""⟩).MinuteLimit = 5 ∧
      ¬ ((classify ⟨1, "1", 0, 0, ""⟩).MinutePercentage = 0 ↔
        (classify ⟨1, "1", 0, 0, ""⟩).MinuteLimit = 0)) ∧
    ((classify ⟨1, "1", 0, 0, ""⟩).DayPercentage = 0 ∧
      (classify ⟨1, "1", 0, 0, ""⟩).DayLimit = 25 ∧
      ¬ ((classify ⟨1, "1", 0, 0, ""⟩).DayPercentage = 0 ↔
        (classify ⟨1, "1", 0, 0, ""⟩).DayLimit = 0)) := by
  have hne : ¬ ("" : String) = "gcp" := by decide
  have h1 : (classify ⟨1, "1", 0, 0, ""⟩).MinutePercentage = 0 := by
    rw [classify_MinutePercentage]
    exact (percentage_eq_zero_iff _ _ (classify_MinuteLimit_pos _)).mpr rfl
  have h2 : (classify ⟨1, "1", 0, 0, ""⟩).MinuteLimit = 5 := by
    simp [classify_MinuteLimit, hne]
  have h3 : (classify ⟨1, "1", 0, 0, ""⟩).DayPercentage = 0 := by
    rw [classify_DayPercentage]
    exact (percentage_eq_zero_iff _ _ (classify_DayLimit_pos _)).mpr rfl
  have h4 : (classify ⟨1, "1", 0, 0, ""⟩).DayLimit = 25 := by
    simp [classify_DayLimit, hne]
  refine ⟨⟨h1, h2, ?_⟩, ⟨h3, h4, ?_⟩⟩
  · intro h
    have := h.mp h1
    rw [h2] at this
    exact absurd this (by decide)
  · intro h
    have := h.mp h3
    rw [h4] at this
    exact absurd this (by decide)

/-- C14 (as amended): for every integer usage and limit the computed percentage is at most
100; with a limit above 0 it is at least 0 exactly when the usage is at least 0 (there is no
lower clamp), and with a limit at most 0 it is 0. So both percentages of every view are at
most 100 whatever the counters are, and each is at least 0 exactly when its counter is. -/
theorem C14_upper_clamp_only :
    (∀ usage limit : Int,
      percentage usage limit ≤ 100 ∧
      (0 < limit → (0 ≤ percentage usage limit ↔ 0 ≤ usage)) ∧
      (limit ≤ 0 → percentage usage limit = 0)) ∧
    (∀ channel : Channel,
      (classify channel).MinutePercentage ≤ 100 ∧
      (classify channel).DayPercentage ≤ 100 ∧
      (0 ≤ (classify channel).MinutePercentage ↔ 0 ≤ channel.CountMinuteUsage) ∧
      (0 ≤ (classify channel).DayPercentage ↔ 0 ≤ channel.CountDayUsage)) := by
  constructor
  · intro usage limit
    exact ⟨percentage_le usage limit, percentage_nonneg_iff usage limit,
      percentage_of_nonpos usage limit⟩
  · intro channel
    rw [classify_MinutePercentage, classify_DayPercentage]
    exact ⟨percentage_le _ _, percentage_le _ _,
      percentage_nonneg_iff _ _ (classify_MinuteLimit_pos channel),
      percentage_nonneg_iff _ _ (classify_DayLimit_pos channel)⟩

/-- C14 at concrete inputs: usage 3 against limit 5, and usage -3 against limit 0. -/
theorem C14_upper_clamp_only_witness :
    ((0 : Int) < 5 ∧ (0 ≤ percentage 3 5 ↔ (0 : Int) ≤ 3)) ∧
    ((0 : Int) ≤ 0 ∧ percentage (-3) 0 = 0) :=
  ⟨⟨by decide, (C14_upper_clamp_only.1 3 5).2.1 (by decide)⟩,
   ⟨by decide, (C14_upper_clamp_only.1 (-3) 0).2.2 (by decide)⟩⟩

/-- C14 (as stated) fails: usage -5 against limit 5 gives the percentage -100, and the view
of a normal channel with minute usage -5 has `MinutePercentage = -100`, below 0. -/
theorem C14_counterexample :
    percentage (-5) 5 = -100 ∧
    ¬ (0 ≤ percentage (-5) 5 ∧ percentage (-5) 5 ≤ 100) ∧
    (classify ⟨1, "1", -5, 0, ""⟩).MinutePercentage = -100 ∧
    ¬ (0 ≤ (classify ⟨1, "1", -5, 0, ""⟩).MinutePercentage) := by
  have hne : ¬ ("" : String) = "gcp" := by decide
  have h1 : percentage (-5) 5 = -100 := by
    rw [percentage_of_pos (-5) 5 (by norm_num), ratioTimes100_neg5_5]
    norm_num
  have h2 : (classify ⟨1, "1", -5, 0, ""⟩).MinutePercentage = -100 := by
    have h : (classify ⟨1, "1", -5, 0, ""⟩).MinutePercentage = percentage (-5) 5 := by
      simp [classify_MinutePercentage, classify_MinuteLimit, hne]
    rw [h, h1]
  rw [h1, h2]
  norm_num

/-- C15 (as amended): for every channel with non-negative usage counts the limits of its view
are (20, 100) for the tag "gcp" and (5, 25) otherwise, and its percentages are the float64
values of `CountMinuteUsage / MinuteLimit * 100` and `CountDayUsage / DayLimit * 100` capped
at 100, each within 100 * 2^-50 of the capped ratio `min(100, 100 * usage / limit)`; a
percentage is exactly 100 whenever the usage reaches the limit. -/
theorem C15_view_percentages (channel : Channel)
    (hm : 0 ≤ channel.CountMinuteUsage) (hd : 0 ≤ channel.CountDayUsage) :
    ((classify channel).MinuteLimit, (classify channel).DayLimit) =
      (if channel.Tag = "gcp" then ((20 : Int), (100 : Int)) else (5, 25)) ∧
    ((classify channel).MinutePercentage =
        min 100 (ratioTimes100 channel.CountMinuteUsage (classify channel).MinuteLimit) ∧
      |(classify channel).MinutePercentage -
          min 100 (100 * (channel.CountMinuteUsage : ℚ) /
            ((classify channel).MinuteLimit : ℚ))| ≤ 100 / 2 ^ 50) ∧
    ((classify channel).DayPercentage =
        min 100 (ratioTimes100 channel.CountDayUsage (classify channel).DayLimit) ∧
      |(classify channel).DayPercentage -
          min 100 (100 * (channel.CountDayUsage : ℚ) /
            ((classify channel).DayLimit : ℚ))| ≤ 100 / 2 ^ 50) ∧
    ((classify channel).MinuteLimit ≤ channel.CountMinuteUsage →
      (classify channel).MinutePercentage = 100) ∧
    ((classify channel).DayLimit ≤ channel.CountDayUsage →
      (classify channel).DayPercentage = 100) := by
  have hml := classify_MinuteLimit_pos channel
  have hdl := classify_DayLimit_pos channel
  refine ⟨?_, ?_, ?_, ?_, ?_⟩
  · rw [classify_MinuteLimit, classify_DayLimit]
    split_ifs <;> rfl
  · rw [classify_MinutePercentage]
    exact ⟨percentage_of_pos _ _ hml, percentage_close _ _ hm hml⟩
  · rw [classify_DayPercentage]
    exact ⟨percentage_of_pos _ _ hdl, percentage_close _ _ hd hdl⟩
  · intro h
    rw [classify_MinutePercentage]
    exact percentage_eq_hundred _ _ hml h
  · intro h
    rw [classify_DayPercentage]
    exact percentage_eq_hundred _ _ hdl h

/-- C15 at a concrete input: a normal channel with minute usage 7 (above its limit 5) and day
usage 3. -/
theorem C15_view_percentages_witness :
    ((0 : Int) ≤ 7 ∧ (0 : Int) ≤ 3) ∧
    |(classify ⟨1, "1", 7, 3, ""⟩).DayPercentage -
        min 100 (100 * (((⟨1, "1", 7, 3, ""⟩ : Channel).CountDayUsage : Int) : ℚ) /
          ((classify ⟨1, "1", 7, 3, ""⟩).DayLimit : ℚ))| ≤ 100 / 2 ^ 50 ∧
    (classify ⟨1, "1", 7, 3, ""⟩).MinutePercentage = 100 :=
  ⟨⟨by decide, by decide⟩,
   (C15_view_percentages ⟨1, "1", 7, 3, ""⟩ (by decide) (by decide)).2.2.1.2,
   (C15_view_percentages ⟨1, "1", 7, 3, ""⟩ (by decide) (by decide)).2.2.2.1
     (by rw [classify_MinuteLimit]; decide)⟩

/-- C15 (as stated) fails: the view of a normal channel with day usage 7 has the day
percentage 7881299347898369 / 2^48 (28.000000000000004), not min(100, 100 * 7 / 25) = 28. -/
theorem C15_counterexample :
    ((0 : Int) ≤ 0 ∧ (0 : Int) ≤ 7) ∧
    (classify ⟨1, "1", 0, 7, ""⟩).DayLimit = 25 ∧
    (classify ⟨1, "1", 0, 7, ""⟩).DayPercentage = 7881299347898369 / 281474976710656 ∧
    ¬ ((classify ⟨1, "1", 0, 7, ""⟩).DayPercentage =
      min 100 (100 * (((⟨1, "1", 0, 7, ""⟩ : Channel).CountDayUsage : Int) : ℚ) /
        ((classify ⟨1, "1", 0, 7, ""⟩).DayLimit : ℚ))) := by
  have hne : ¬ ("" : String) = "gcp" := by decide
  have hl : (classify ⟨1, "1", 0, 7, ""⟩).DayLimit = 25 := by
    simp [classify_DayLimit, hne]
  have hp : (classify ⟨1, "1", 0, 7, ""⟩).DayPercentage =
      7881299347898369 / 281474976710656 := by
    have h : (classify ⟨1, "1", 0, 7, ""⟩).DayPercentage = percentage 7 25 := by
      simp [classify_DayPercentage, classify_DayLimit, hne]
    rw [h, percentage_of_pos 7 25 (by norm_num), ratioTimes100_7_25]
    norm_num
  refine ⟨⟨by decide, by decide⟩, hl, hp, ?_⟩
  rw [hp, hl]
  norm_num

theorem classify_ID (channel : Channel) : (classify channel).ID = channel.ID := by
  by_cases hg : channel.Tag = "gcp" <;> by_cases hs : channel.Status = "1" <;>
    simp [classify, tierView, statusView, hg, hs]

/-- On rows that all scan, the loop with the scan check is the row loop. -/
theorem scanLoop_map_record (st : LoopState) (rows : List Channel) :
    scanLoop st (rows.map RowRead.record) = some (rowLoop st rows) := by
  induction rows generalizing st with
  | nil => rfl
  | cons c rows ih => simp only [List.map_cons, scanLoop, rowLoop_cons, ih]

/-- A scan error anywhere in the result set ends the loop without a state. -/
theorem scanLoop_eq_none_of_mem (st : LoopState) (reads : List RowRead)
    (h : RowRead.scanError ∈ reads) : scanLoop st reads = none := by
  induction reads generalizing st with
  | nil => exact absurd h (List.not_mem_nil _)
  | cons r reads ih =>
    cases r with
    | scanError => rfl
    | record c =>
      simp only [scanLoop]
      refine ih _ ?_
      rcases List.mem_cons.mp h with h1 | h1
      · exact RowRead.noConfusion h1
      · exact h1

/-- The loop with the scan check ends with a state only on rows that all scan. -/
theorem scanLoop_eq_some (st st2 : LoopState) (reads : List RowRead)
    (h : scanLoop st reads = some st2) :
    ∃ rows : List Channel, reads = rows.map RowRead.record ∧ st2 = rowLoop st rows := by
  induction reads generalizing st with
  | nil =>
    refine ⟨[], rfl, ?_⟩
    simp only [scanLoop, Option.some.injEq] at h
    rw [← h]
    rfl
  | cons r reads ih =>
    cases r with
    | scanError => simp [scanLoop] at h
    | record c =>
      simp only [scanLoop] at h
      obtain ⟨rows, hr, hst⟩ := ih _ h
      exact ⟨c :: rows, by rw [hr]; rfl, by rw [hst]; rfl⟩

/-- C16: the views handed to the template are a permutation of the classified records, one
view per record; every view carries its record's `ID`, `CountMinuteUsage` and `CountDayUsage`
unchanged; and the summary handed to the template is the one computed before the ranking. -/
theorem C16_rank_is_reordering (rows : List Channel) :
    (pass rows).Channels.Perm (rows.map classify) ∧
    (pass rows).Channels.length = rows.length ∧
    (∀ channel : Channel,
      (classify channel).ID = channel.ID ∧
      (classify channel).CountMinuteUsage = channel.CountMinuteUsage ∧
      (classify channel).CountDayUsage = channel.CountDayUsage) ∧
    ((pass rows).Channels.map (fun v => (v.ID, v.CountMinuteUsage, v.CountDayUsage))).Perm
      (rows.map (fun c => (c.ID, c.CountMinuteUsage, c.CountDayUsage))) ∧
    (pass rows).Summary = finalize (rowLoop LoopState.init rows) ∧
    handler (rows.map RowRead.record) false =
      some { Channels := (pass rows).Channels,
             Summary := finalize (rowLoop LoopState.init rows) } := by
  have hp := pass_Channels_perm rows
  refine ⟨hp, ?_, ?_, ?_, rfl, ?_⟩
  · rw [hp.length_eq, List.length_map]
  · intro channel
    exact ⟨classify_ID channel, classify_CountMinuteUsage channel,
      classify_CountDayUsage channel⟩
  · have h := hp.map (fun v => (v.ID, v.CountMinuteUsage, v.CountDayUsage))
    simpa [List.map_map, Function.comp_def, classify_ID, classify_CountMinuteUsage,
      classify_CountDayUsage] using h
  · simp [handler, scanLoop_map_record, pass]

/-- C17: the comparator is a strict weak order: it is irreflexive and transitive, two views
are incomparable exactly when their key triples (`IsPaid`, `DayPercentage`,
`MinutePercentage`) are equal, and incomparability is transitive. -/
theorem C17_strict_weak_order :
    (∀ a : ChannelView, less a a = false) ∧
    (∀ a b c : ChannelView, less a b = true → less b c = true → less a c = true) ∧
    (∀ a b : ChannelView, (less a b = false ∧ less b a = false) ↔ sortKey a = sortKey b) ∧
    (∀ a b c : ChannelView, (less a b = false ∧ less b a = false) →
      (less b c = false ∧ less c b = false) → (less a c = false ∧ less c a = false)) := by
  have hkey : ∀ a b : ChannelView,
      (less a b = false ∧ less b a = false) ↔ sortKey a = sortKey b := by
    intro a b
    constructor
    · rintro ⟨h1, h2⟩
      rw [Bool.eq_false_iff, Ne, less_iff] at h1 h2
      push_neg at h1 h2
      have hp : a.IsPaid = b.IsPaid := by
        cases ha : a.IsPaid <;> cases hb : b.IsPaid
        · rfl
        · exact absurd (h2.1 hb) (by simp [ha])
        · exact absurd (h1.1 ha) (by simp [hb])
        · rfl
      obtain ⟨d1, m1⟩ := h1.2 hp
      obtain ⟨d2, m2⟩ := h2.2 hp.symm
      have hd : a.DayPercentage = b.DayPercentage := le_antisymm d2 d1
      have hm : a.MinutePercentage = b.MinutePercentage :=
        le_antisymm (m2 hd.symm) (m1 hd)
      simp [sortKey, hp, hd, hm]
    · intro h
      exact ⟨less_eq_false_of_sortKey_eq a b h, less_eq_false_of_sortKey_eq b a h.symm⟩
  refine ⟨fun a => less_eq_false_of_sortKey_eq a a rfl, ?_, hkey, ?_⟩
  · intro a b c hab hbc
    by_contra hac
    have hac' : less a c = false := by simpa using hac
    have hcb : less c b = false := less_asymm b c hbc
    have := less_negTrans a c b hac' hcb
    rw [hab] at this
    exact Bool.noConfusion this
  · intro a b c h1 h2
    exact (hkey a c).mpr (((hkey a b).mp h1).trans ((hkey b c).mp h2))

/-- C17 at concrete inputs: three normal views at day percentages 1, 2, 3. -/
theorem C17_strict_weak_order_witness :
    less (mkView 1 false 1 0) (mkView 2 false 2 0) = true ∧
    less (mkView 2 false 2 0) (mkView 3 false 3 0) = true ∧
    less (mkView 1 false 1 0) (mkView 3 false 3 0) = true :=
  ⟨by decide, by decide,
   C17_strict_weak_order.2.1 (mkView 1 false 1 0) (mkView 2 false 2 0) (mkView 3 false 3 0)
     (by decide) (by decide)⟩

/-! ## Failure claims -/

/-- C18: a pass is all-or-nothing. If any row fails to scan, or the iteration ends with an
error, the handler hands nothing to the template; on rows that all scan and an iteration that
ends without error it hands over the views and the summary of the pass over all the records;
and whatever it hands over is the pass over every row of the result set. -/
theorem C18_all_or_nothing (reads : List RowRead) (rowsErr : Bool) :
    ((RowRead.scanError ∈ reads ∨ rowsErr = true) → handler reads rowsErr = none) ∧
    (∀ rows : List Channel, reads = rows.map RowRead.record → rowsErr = false →
      handler reads rowsErr = some (pass rows)) ∧
    (∀ page : PageData, handler reads rowsErr = some page →
      ∃ rows : List Channel,
        reads = rows.map RowRead.record ∧ rowsErr = false ∧ page = pass rows) := by
  refine ⟨?_, ?_, ?_⟩
  · rintro (h | h)
    · simp [handler, scanLoop_eq_none_of_mem LoopState.init reads h]
    · cases hs : scanLoop LoopState.init reads <;> simp [handler, hs, h]
  · intro rows hr he
    rw [hr, he]
    simp [handler, scanLoop_map_record, pass]
  · intro page h
    cases hs : scanLoop LoopState.init reads with
    | none => simp [handler, hs] at h
    | some st =>
      obtain ⟨rows, hr, hst⟩ := scanLoop_eq_some _ _ _ hs
      cases rowsErr with
      | true => simp [handler, hs] at h
      | false =>
        refine ⟨rows, hr, rfl, ?_⟩
        simp only [handler, hs, Bool.false_eq_true, if_false, Option.some.injEq] at h
        rw [← h, hst]
        rfl

/-- C18 at concrete inputs: a result set whose second row fails to scan, and one whose two
rows scan. -/
theorem C18_all_or_nothing_witness :
    ((RowRead.scanError ∈
        [RowRead.record ⟨1, "1", 1, 1, ""⟩, RowRead.scanError,
          RowRead.record ⟨3, "1", 1, 1, ""⟩] ∨ false = true) ∧
      handler [RowRead.record ⟨1, "1", 1, 1, ""⟩, RowRead.scanError,
        RowRead.record ⟨3, "1", 1, 1, ""⟩] false = none) ∧
    handler (skewedPool.map RowRead.record) false = some (pass skewedPool) :=
  ⟨⟨Or.inl (by decide),
    (C18_all_or_nothing [RowRead.record ⟨1, "1", 1, 1, ""⟩, RowRead.scanError,
      RowRead.record ⟨3, "1", 1, 1, ""⟩] false).1 (Or.inl (by decide))⟩,
   (C18_all_or_nothing (skewedPool.map RowRead.record) false).2.1 skewedPool rfl rfl⟩

/-! ## The summary as a function of the multiset of records -/

theorem rowLoop_DisabledNormalChannels (st : LoopState) (rows : List Channel) :
    (rowLoop st rows).summary.DisabledNormalChannels = st.summary.DisabledNormalChannels := by
  induction rows generalizing st with
  | nil => rfl
  | cons c rows ih =>
    rw [rowLoop_cons, ih]
    by_cases hg : c.Tag = "gcp" <;> simp [rowBody, hg]

theorem SummaryData.eq_of_fields (a b : SummaryData)
    (h1 : a.TotalMinuteUsage = b.TotalMinuteUsage) (h2 : a.TotalDayUsage = b.TotalDayUsage)
    (h3 : a.TotalMinuteLimit = b.TotalMinuteLimit) (h4 : a.TotalDayLimit = b.TotalDayLimit)
    (h5 : a.MinutePercentage = b.MinutePercentage) (h6 : a.DayPercentage = b.DayPercentage)
    (h7 : a.DisabledNormalChannels = b.DisabledNormalChannels)
    (h8 : a.TotalNormalChannels = b.TotalNormalChannels)
    (h9 : a.DisabledNormalPercentage = b.DisabledNormalPercentage) : a = b := by
  cases a
  cases b
  simp only [SummaryData.mk.injEq]
  exact ⟨h1, h2, h3, h4, h5, h6, h7, h8, h9⟩

/-- The loop state after a permuted result set has the same summary and the same count, from
a state whose usage totals are in the 64-bit range. -/
theorem rowLoop_perm (st : LoopState) (rows rows2 : List Channel) (h : rows.Perm rows2)
    (hm : wrapInt st.summary.TotalMinuteUsage = st.summary.TotalMinuteUsage)
    (hd : wrapInt st.summary.TotalDayUsage = st.summary.TotalDayUsage) :
    (rowLoop st rows).summary = (rowLoop st rows2).summary ∧
    (rowLoop st rows).availableNormalChannels =
      (rowLoop st rows2).availableNormalChannels := by
  constructor
  · apply SummaryData.eq_of_fields
    · rw [← rowLoop_TotalMinuteUsage_range st rows hm,
        ← rowLoop_TotalMinuteUsage_range st rows2 hm, rowLoop_TotalMinuteUsage,
        rowLoop_TotalMinuteUsage, (h.map _).sum_eq]
    · rw [← rowLoop_TotalDayUsage_range st rows hd,
        ← rowLoop_TotalDayUsage_range st rows2 hd, rowLoop_TotalDayUsage,
        rowLoop_TotalDayUsage, (h.map _).sum_eq]
    · rw [rowLoop_TotalMinuteLimit, rowLoop_TotalMinuteLimit, (h.map _).sum_eq]
    · rw [rowLoop_TotalDayLimit, rowLoop_TotalDayLimit, (h.map _).sum_eq]
    · rw [rowLoop_MinutePercentage, rowLoop_MinutePercentage]
    · rw [rowLoop_DayPercentage, rowLoop_DayPercentage]
    · rw [rowLoop_DisabledNormalChannels, rowLoop_DisabledNormalChannels]
    · rw [rowLoop_TotalNormalChannels, rowLoop_TotalNormalChannels, h.countP_eq]
    · rw [rowLoop_DisabledNormalPercentage, rowLoop_DisabledNormalPercentage]
  · rw [rowLoop_availableNormalChannels, rowLoop_availableNormalChannels, h.countP_eq]

theorem finalize_congr (st st2 : LoopState) (hs : st.summary = st2.summary)
    (ha : st.availableNormalChannels = st2.availableNormalChannels) :
    finalize st = finalize st2 := by
  unfold finalize
  rw [hs, ha]

/-- C19: the summary does not depend on the order of the records: two passes over result sets
that are permutations of each other produce equal `SummaryData`. -/
theorem C19_summary_order_independent (rows rows2 : List Channel) (h : rows.Perm rows2) :
    (pass rows).Summary = (pass rows2).Summary := by
  obtain ⟨hs, ha⟩ := rowLoop_perm LoopState.init rows rows2 h (by decide) (by decide)
  exact finalize_congr _ _ hs ha

/-- C19 at a concrete input: the skewed pool and the same two records in the other order. -/
theorem C19_summary_order_independent_witness :
    skewedPool.Perm skewedPool.reverse ∧
    (pass skewedPool).Summary = (pass skewedPool.reverse).Summary :=
  ⟨(List.reverse_perm skewedPool).symm,
   C19_summary_order_independent skewedPool skewedPool.reverse
     (List.reverse_perm skewedPool).symm⟩

/-! ## The summary percentage between the extreme view percentages -/

/-- Some record has a ratio at most the ratio of the sums, in cross-multiplied form. -/
theorem exists_ratio_le_total (rows : List Channel) (hne : rows ≠ []) (u l : Channel → Int) :
    ∃ c ∈ rows, u c * (rows.map l).sum ≤ (rows.map u).sum * l c := by
  by_contra hcon
  push_neg at hcon
  have h := List.sum_lt_sum_of_ne_nil hne
    (fun c => (rows.map u).sum * l c) (fun c => u c * (rows.map l).sum) hcon
  rw [List.sum_map_mul_left, List.sum_map_mul_right] at h
  exact lt_irrefl _ h

/-- Some record has a ratio at least the ratio of the sums, in cross-multiplied form. -/
theorem exists_total_le_ratio (rows : List Channel) (hne : rows ≠ []) (u l : Channel → Int) :
    ∃ c ∈ rows, (rows.map u).sum * l c ≤ u c * (rows.map l).sum := by
  by_contra hcon
  push_neg at hcon
  have h := List.sum_lt_sum_of_ne_nil hne
    (fun c => u c * (rows.map l).sum) (fun c => (rows.map u).sum * l c) hcon
  rw [List.sum_map_mul_left, List.sum_map_mul_right] at h
  exact lt_irrefl _ h

/-- On operands that convert exactly, the percentage grows with the ratio of usage to
limit. -/
theorem percentage_le_percentage (u1 l1 u2 l2 : Int) (h1 : 0 < l1) (h2 : 0 < l2)
    (eu1 : |u1| < 2 ^ 53) (el1 : |l1| < 2 ^ 53) (eu2 : |u2| < 2 ^ 53) (el2 : |l2| < 2 ^ 53)
    (h : u1 * l2 ≤ u2 * l1) : percentage u1 l1 ≤ percentage u2 l2 := by
  rw [percentage_of_pos u1 l1 h1, percentage_of_pos u2 l2 h2]
  exact min_le_min le_rfl (ratioTimes100_mono u1 l1 u2 l2 h1 h2 eu1 el1 eu2 el2 h)

/-- Among records with non-negative usages and limits between 1 and 100 whose limit total
converts to float64 exactly, some record has a percentage at most the percentage of the
totals, and some record has one at least that. -/
theorem percentage_between (rows : List Channel) (hne : rows ≠ []) (u l : Channel → Int)
    (hu : ∀ c ∈ rows, 0 ≤ u c) (hl : ∀ c ∈ rows, 0 < l c ∧ l c ≤ 100)
    (hL : (rows.map l).sum < 2 ^ 53) :
    (∃ c ∈ rows, percentage (u c) (l c) ≤ percentage (rows.map u).sum (rows.map l).sum) ∧
    (∃ c ∈ rows, percentage (rows.map u).sum (rows.map l).sum ≤ percentage (u c) (l c)) := by
  have hU0 : 0 ≤ (rows.map u).sum := sum_usage_nonneg rows u hu
  have hLpos : 0 < (rows.map l).sum := by
    have h := List.sum_lt_sum_of_ne_nil hne (fun _ => (0 : Int)) l (fun c hc => (hl c hc).1)
    simpa using h
  have hLabs : |(rows.map l).sum| < 2 ^ 53 := abs_lt.mpr ⟨by linarith, hL⟩
  have hlabs : ∀ c ∈ rows, |l c| < 2 ^ 53 := fun c hc =>
    abs_lt.mpr ⟨by linarith [(hl c hc).1], by linarith [(hl c hc).2]⟩
  have hle : ∀ c ∈ rows, u c ≤ (rows.map u).sum := fun c hc =>
    List.single_le_sum (fun x hx => by
      obtain ⟨d, hd, rfl⟩ := List.mem_map.mp hx
      exact hu d hd) _ (List.mem_map_of_mem u hc)
  constructor
  · by_cases hU : (rows.map u).sum < 2 ^ 53
    · obtain ⟨c, hc, h⟩ := exists_ratio_le_total rows hne u l
      refine ⟨c, hc, ?_⟩
      exact percentage_le_percentage _ _ _ _ (hl c hc).1 hLpos
        (abs_lt.mpr ⟨by linarith [hu c hc], by linarith [hle c hc]⟩) (hlabs c hc)
        (abs_lt.mpr ⟨by linarith, hU⟩) hLabs h
    · obtain ⟨c, hc⟩ := List.exists_mem_of_ne_nil rows hne
      refine ⟨c, hc, ?_⟩
      rw [percentage_eq_hundred (rows.map u).sum (rows.map l).sum hLpos (by linarith)]
      exact percentage_le _ _
  · by_cases hex : ∃ c ∈ rows, l c ≤ u c
    · obtain ⟨c, hc, h⟩ := hex
      refine ⟨c, hc, ?_⟩
      rw [percentage_eq_hundred (u c) (l c) (hl c hc).1 h]
      exact percentage_le _ _
    · push_neg at hex
      have hUL : (rows.map u).sum < (rows.map l).sum :=
        List.sum_lt_sum_of_ne_nil hne u l hex
      obtain ⟨c, hc, h⟩ := exists_total_le_ratio rows hne u l
      refine ⟨c, hc, ?_⟩
      exact percentage_le_percentage _ _ _ _ hLpos (hl c hc).1
        (abs_lt.mpr ⟨by linarith, by linarith⟩) hLabs
        (abs_lt.mpr ⟨by linarith [hu c hc], by linarith [hex c hc, (hl c hc).2]⟩)
        (hlabs c hc) h

theorem classify_limits_le (channel : Channel) :
    (classify channel).MinuteLimit ≤ 100 ∧ (classify channel).DayLimit ≤ 100 ∧
    (classify channel).MinuteLimit ≤ (classify channel).DayLimit := by
  rw [classify_MinuteLimit, classify_DayLimit]
  split_ifs <;> norm_num

/-- A view of the pass whose minute percentage is at most the summary's, and one whose minute
percentage is at least the summary's; the same for the day window. -/
theorem pass_percentage_between (rows : List Channel) (hne : rows ≠ [])
    (hu : ∀ c ∈ rows, 0 ≤ c.CountMinuteUsage ∧ 0 ≤ c.CountDayUsage)
    (hm63 : (rows.map (fun c => c.CountMinuteUsage)).sum < 2 ^ 63)
    (hd63 : (rows.map (fun c => c.CountDayUsage)).sum < 2 ^ 63)
    (hL : (rows.map (fun c => (classify c).DayLimit)).sum < 2 ^ 53) :
    (∃ v ∈ (pass rows).Channels,
      v.MinutePercentage ≤ (pass rows).Summary.MinutePercentage) ∧
    (∃ v ∈ (pass rows).Channels,
      (pass rows).Summary.MinutePercentage ≤ v.MinutePercentage) ∧
    (∃ v ∈ (pass rows).Channels,
      v.DayPercentage ≤ (pass rows).Summary.DayPercentage) ∧
    (∃ v ∈ (pass rows).Channels,
      (pass rows).Summary.DayPercentage ≤ v.DayPercentage) := by
  have hmem : ∀ c ∈ rows, classify c ∈ (pass rows).Channels := fun c hc =>
    (pass_Channels_perm rows).mem_iff.mpr (List.mem_map_of_mem classify hc)
  have hm0 := sum_usage_nonneg rows (fun c => c.CountMinuteUsage) (fun c hc => (hu c hc).1)
  have hd0 := sum_usage_nonneg rows (fun c => c.CountDayUsage) (fun c hc => (hu c hc).2)
  have hwm : wrapInt (rows.map (fun c => c.CountMinuteUsage)).sum =
      (rows.map (fun c => c.CountMinuteUsage)).sum :=
    wrapInt_of_range _ (by linarith) (by norm_num at hm63; exact hm63)
  have hwd : wrapInt (rows.map (fun c => c.CountDayUsage)).sum =
      (rows.map (fun c => c.CountDayUsage)).sum :=
    wrapInt_of_range _ (by linarith) (by norm_num at hd63; exact hd63)
  have hLm : (rows.map (fun c => (classify c).MinuteLimit)).sum < 2 ^ 53 :=
    lt_of_le_of_lt (List.sum_le_sum (fun c _ => (classify_limits_le c).2.2)) hL
  obtain ⟨⟨c1, hc1, h1⟩, ⟨c2, hc2, h2⟩⟩ := percentage_between rows hne
    (fun c => c.CountMinuteUsage) (fun c => (classify c).MinuteLimit)
    (fun c hc => (hu c hc).1)
    (fun c _ => ⟨classify_MinuteLimit_pos c, (classify_limits_le c).1⟩) hLm
  obtain ⟨⟨c3, hc3, h3⟩, ⟨c4, hc4, h4⟩⟩ := percentage_between rows hne
    (fun c => c.CountDayUsage) (fun c => (classify c).DayLimit)
    (fun c hc => (hu c hc).2)
    (fun c _ => ⟨classify_DayLimit_pos c, (classify_limits_le c).2.1⟩) hL
  rw [pass_MinutePercentage, pass_DayPercentage, pass_TotalMinuteUsage, pass_TotalDayUsage,
    pass_TotalMinuteLimit, pass_TotalDayLimit, hwm, hwd]
  exact ⟨⟨classify c1, hmem c1 hc1, h1⟩, ⟨classify c2, hmem c2 hc2, h2⟩,
    ⟨classify c3, hmem c3 hc3, h3⟩, ⟨classify c4, hmem c4 hc4, h4⟩⟩

/-- C20 (as amended): for every non-empty list of channels with non-negative usage counts
whose usage sums stay below 2^63 (no wrap-around of the totals) and whose day limits sum to
less than 2^53 (the limit totals convert to float64 exactly), the summary percentage of each
window lies between the smallest and the largest percentage of the views: some view is at
most the summary and some view is at least the summary, so every lower bound of the views'
percentages (their minimum among them) is at most the summary percentage and every upper
bound (their maximum among them) is at least it. -/
theorem C20_summary_between_extremes (rows : List Channel) (hne : rows ≠ [])
    (hu : ∀ c ∈ rows, 0 ≤ c.CountMinuteUsage ∧ 0 ≤ c.CountDayUsage)
    (hm63 : (rows.map (fun c => c.CountMinuteUsage)).sum < 2 ^ 63)
    (hd63 : (rows.map (fun c => c.CountDayUsage)).sum < 2 ^ 63)
    (hL : (rows.map (fun c => (classify c).DayLimit)).sum < 2 ^ 53) :
    ((∃ v ∈ (pass rows).Channels,
        v.MinutePercentage ≤ (pass rows).Summary.MinutePercentage) ∧
      (∃ v ∈ (pass rows).Channels,
        (pass rows).Summary.MinutePercentage ≤ v.MinutePercentage) ∧
      (∃ v ∈ (pass rows).Channels,
        v.DayPercentage ≤ (pass rows).Summary.DayPercentage) ∧
      (∃ v ∈ (pass rows).Channels,
        (pass rows).Summary.DayPercentage ≤ v.DayPercentage)) ∧
    (∀ lo hi : ℚ,
      (∀ v ∈ (pass rows).Channels, lo ≤ v.MinutePercentage ∧ v.MinutePercentage ≤ hi) →
      lo ≤ (pass rows).Summary.MinutePercentage ∧ (pass rows).Summary.MinutePercentage ≤ hi) ∧
    (∀ lo hi : ℚ,
      (∀ v ∈ (pass rows).Channels, lo ≤ v.DayPercentage ∧ v.DayPercentage ≤ hi) →
      lo ≤ (pass rows).Summary.DayPercentage ∧ (pass rows).Summary.DayPercentage ≤ hi) := by
  have hb := pass_percentage_between rows hne hu hm63 hd63 hL
  obtain ⟨⟨v1, hv1, h1⟩, ⟨v2, hv2, h2⟩, ⟨v3, hv3, h3⟩, ⟨v4, hv4, h4⟩⟩ := hb
  refine ⟨⟨⟨v1, hv1, h1⟩, ⟨v2, hv2, h2⟩, ⟨v3, hv3, h3⟩, ⟨v4, hv4, h4⟩⟩, ?_, ?_⟩
  · intro lo hi hbound
    exact ⟨le_trans (hbound v1 hv1).1 h1, le_trans h2 (hbound v2 hv2).2⟩
  · intro lo hi hbound
    exact ⟨le_trans (hbound v3 hv3).1 h3, le_trans h4 (hbound v4 hv4).2⟩

/-- C20 at a concrete input: the skewed pool, whose views have the day percentages 4 and 25
and whose summary day percentage is the float64 nearest to 20.8. -/
theorem C20_summary_between_extremes_witness :
    skewedPool ≠ [] ∧
    (∀ c ∈ skewedPool, 0 ≤ c.CountMinuteUsage ∧ 0 ≤ c.CountDayUsage) ∧
    (skewedPool.map (fun c => c.CountMinuteUsage)).sum < 2 ^ 63 ∧
    (skewedPool.map (fun c => c.CountDayUsage)).sum < 2 ^ 63 ∧
    (skewedPool.map (fun c => (classify c).DayLimit)).sum < 2 ^ 53 ∧
    (∃ v ∈ (pass skewedPool).Channels,
      v.DayPercentage ≤ (pass skewedPool).Summary.DayPercentage) ∧
    (∃ v ∈ (pass skewedPool).Channels,
      (pass skewedPool).Summary.DayPercentage ≤ v.DayPercentage) :=
  ⟨by decide, by decide, by decide, by decide, by decide,
   (C20_summary_between_extremes skewedPool (by decide) (by decide) (by decide) (by decide)
     (by decide)).1.2.2.1,
   (C20_summary_between_extremes skewedPool (by decide) (by decide) (by decide) (by decide)
     (by decide)).1.2.2.2⟩

/-- C20 (as stated) fails: on two normal channels with day usage 2^63 - 1 both views have the
day percentage 100, while the day total wraps to -2 and the summary day percentage is -4,
below the smallest percentage of the views. -/
theorem C20_counterexample :
    overflowPool ≠ [] ∧
    (∀ c ∈ overflowPool, 0 ≤ c.CountMinuteUsage ∧ 0 ≤ c.CountDayUsage) ∧
    (∀ v ∈ (pass overflowPool).Channels, v.DayPercentage = 100) ∧
    (pass overflowPool).Summary.DayPercentage = -4 ∧
    ¬ (∃ v ∈ (pass overflowPool).Channels,
      v.DayPercentage ≤ (pass overflowPool).Summary.DayPercentage) := by
  have hv : ∀ v ∈ (pass overflowPool).Channels, v.DayPercentage = 100 := by
    intro v hv
    obtain ⟨c, hc, rfl⟩ := List.mem_map.mp ((pass_Channels_perm overflowPool).mem_iff.mp hv)
    rw [classify_DayPercentage]
    refine percentage_eq_hundred _ _ (classify_DayLimit_pos c) ?_
    have h100 := (classify_limits_le c).2.1
    have hc' : c.CountDayUsage = 9223372036854775807 := by
      simp only [overflowPool, List.mem_cons, List.mem_singleton, List.not_mem_nil,
        or_false] at hc
      rcases hc with h | h <;> rw [h]
    rw [hc']
    linarith
  refine ⟨by decide, by decide, hv, pass_DayPercentage_overflowPool, ?_⟩
  rintro ⟨v, hv1, hv2⟩
  rw [hv v hv1, pass_DayPercentage_overflowPool] at hv2
  norm_num at hv2


/-! ## Ranking a ranked list -/

/-- An element that the comparator does not put before its left neighbour stays in place. -/
theorem sinkLeft_of_not_lt {α : Type} (lt : α → α → Bool) (x : α) (l : List α)
    (h : ∀ y ∈ l, lt x y = false) : sinkLeft lt x l = x :: l := by
  cases l with
  | nil => rfl
  | cons y ys =>
    have hy : lt x y = false := h y (List.mem_cons_self y ys)
    simp [sinkLeft, hy]

/-- On a slice that is already in order the outer loop only moves the boundary of the sorted
part. -/
theorem insertionLoop_of_pairwise {α : Type} (lt : α → α → Bool) (sorted rest : List α)
    (h : (sorted.reverse ++ rest).Pairwise (fun a b => lt b a = false)) :
    insertionLoop lt sorted rest = rest.reverse ++ sorted := by
  induction rest generalizing sorted with
  | nil => simp [insertionLoop]
  | cons x rest ih =>
    have hx : ∀ y ∈ sorted, lt x y = false := by
      intro y hy
      have hp := List.pairwise_append.mp h
      exact hp.2.2 y (List.mem_reverse.mpr hy) x (List.mem_cons_self x rest)
    simp only [insertionLoop]
    rw [sinkLeft_of_not_lt lt x sorted hx, ih (x :: sorted) (by simpa using h)]
    simp

/-- The stable sort returns a slice that is already in order unchanged. -/
theorem sliceStable_of_pairwise {α : Type} (lt : α → α → Bool) (data : List α)
    (h : data.Pairwise (fun a b => lt b a = false)) : sliceStable lt data = data := by
  unfold sliceStable
  rw [insertionLoop_of_pairwise lt [] data (by simpa using h)]
  simp

/-- C21: ranking is idempotent: the stable sort with the comparator of the handler returns an
already ranked list unchanged, `rank (rank v) = rank v`; more generally it returns every list
unchanged in which no view is put by the comparator before a view that precedes it. -/
theorem C21_rank_idempotent :
    (∀ channelViews : List ChannelView, rank (rank channelViews) = rank channelViews) ∧
    (∀ channelViews : List ChannelView,
      channelViews.Pairwise (fun a b => less b a = false) → rank channelViews = channelViews) ∧
    rank (rank scenarioInput) =
      [mkView 1 true 10 0, mkView 3 false 5 0, mkView 2 false 90 0] := by
  have hid : ∀ channelViews : List ChannelView,
      rank (rank channelViews) = rank channelViews := fun channelViews =>
    sliceStable_of_pairwise less (rank channelViews) (rank_pairwise channelViews)
  refine ⟨hid, fun channelViews h => sliceStable_of_pairwise less channelViews h, ?_⟩
  rw [hid, rank_scenarioInput]

/-- C21 at a concrete input: a list in the order of the comparator, a paid view first. -/
theorem C21_rank_idempotent_witness :
    [mkView 1 true 10 0, mkView 3 false 5 0, mkView 2 false 90 0].Pairwise
      (fun a b => less b a = false) ∧
    rank [mkView 1 true 10 0, mkView 3 false 5 0, mkView 2 false 90 0] =
      [mkView 1 true 10 0, mkView 3 false 5 0, mkView 2 false 90 0] :=
  ⟨by decide,
   C21_rank_idempotent.2.1 [mkView 1 true 10 0, mkView 3 false 5 0, mkView 2 false 90 0]
     (by decide)⟩

end Monitoring
